import Mathlib

/-!
# Verification of the BigNumber canonicalization core

Shallow embedding of `packages/bignumber/src.ts/bignumber.ts`.

Modelling conventions:
* JavaScript strings are modelled as `List Char`.
* The arbitrary-precision engine (bn.js) is external to the repository and,
  following the specification, is "assumed correct and used as a primitive":
  its values are modelled as `Int`, its radix rendering/parsing by the
  fueled base-conversion functions below, and its arithmetic by the
  corresponding `Int` operations.
* Integral JavaScript numbers are modelled as `Int` (the `value % 1`
  underflow check of `BigNumber.from` never fires on integral input and no
  claim concerns fractional numbers).
* Thrown errors are modelled with `Except`; the error type keeps the pieces
  of the error taxonomy the claims distinguish (invalid-argument errors and
  numeric faults with their `fault` and `operation` strings).
-/

set_option maxRecDepth 10000
set_option linter.constructorNameAsVariable false

/-! ## Character classes (for the regular expressions in the source) -/

/-- `[0-9]` — `'0'.toNat = 48`, `'9'.toNat = 57`. -/
def isDigitB (c : Char) : Bool := 48 ≤ c.toNat && c.toNat ≤ 57

/-- `[0-9a-f]` (lowercase hex digit) — `'a'.toNat = 97`, `'f'.toNat = 102`. -/
def isLowerHexB (c : Char) : Bool :=
  isDigitB c || (97 ≤ c.toNat && c.toNat ≤ 102)

/-- `[0-9a-f]` under the `i` regex flag, i.e. `[0-9a-fA-F]` —
`'A'.toNat = 65`, `'F'.toNat = 70`. -/
def isHexCIB (c : Char) : Bool :=
  isLowerHexB c || (65 ≤ c.toNat && c.toNat ≤ 70)

/-- Numeric value of a hex digit (case-insensitive, as the bn.js engine
parses it); `none` on anything else. -/
def hexVal (c : Char) : Option Nat :=
  if 48 ≤ c.toNat && c.toNat ≤ 57 then some (c.toNat - 48)
  else if 97 ≤ c.toNat && c.toNat ≤ 102 then some (c.toNat - 87)
  else if 65 ≤ c.toNat && c.toNat ≤ 70 then some (c.toNat - 55)
  else none

/-! ## Engine radix rendering and parsing

Modelled from the spec: the engine collaborator provides
"radix-parse/radix-render operations on arbitrary-width signed integers"
(bn.js `new BN(str, base)` / `BN.toString(base)`, and JavaScript
`String(number)` for integral numbers, which agrees with the base-10
rendering).  The renderer is fuel-driven so that it is kernel-reducible. -/

/-- Digits of `n` in base `b` (most significant first), lowercase, no
leading zeros, `"0"` for zero.  `fuel` bounds the recursion depth. -/
def natToBaseAux (b : Nat) : Nat → Nat → List Char
  | 0, _ => []
  | fuel+1, n =>
    if n < b then [Nat.digitChar n]
    else natToBaseAux b fuel (n / b) ++ [Nat.digitChar (n % b)]

def natToBase (b n : Nat) : List Char := natToBaseAux b (n + 1) n

/-- bn.js `toString(16)` (also used for `abs().toString(16)`). -/
def natToHex (n : Nat) : List Char := natToBase 16 n

/-- bn.js `toString(10)` / JavaScript `String(n)` for integral `n`. -/
def natToDec (n : Nat) : List Char := natToBase 10 n

/-- bn.js `toString(16)` on a signed value: `-` prefix on the magnitude. -/
def intToHexStr (z : Int) : List Char :=
  if z < 0 then '-' :: natToHex z.natAbs else natToHex z.toNat

/-- bn.js `toString(10)` / JavaScript `String(z)` on a signed value. -/
def intToDecStr (z : Int) : List Char :=
  if z < 0 then '-' :: natToDec z.natAbs else natToDec z.toNat

/-- Accumulator-style base-`b` digit parsing; a digit whose value is not
below `b` (or a non-digit character) is out of the engine's domain and
yields `none`. -/
def parseBaseAux (b : Nat) : Nat → List Char → Option Nat
  | acc, [] => some acc
  | acc, c :: cs =>
    match hexVal c with
    | some d => if d < b then parseBaseAux b (acc * b + d) cs else none
    | none => none

/-- bn.js `new BN(s, 16)` on an unsigned hex-digit string. -/
def parseHexNat (s : List Char) : Option Nat := parseBaseAux 16 0 s

/-- bn.js `new BN(s, 10)` on an unsigned decimal-digit string. -/
def parseDecNat (s : List Char) : Option Nat := parseBaseAux 10 0 s

/-- bn.js `new BN(s)` (base 10) on an optionally `-`-signed decimal
string, as used by `BigNumber.from` for decimal input. -/
def parseDecimal (s : List Char) : Option Int :=
  if s.head? = some '-' then (parseDecNat s.tail).map (fun (n : Nat) => -(n : Int))
  else (parseDecNat s).map (fun (n : Nat) => (n : Int))

/-! ## The canonical encoder `toHex` (bignumber.ts lines 200-241) -/

/-- The source's while-loop
`while (value.length > 4 && value.substring(0, 4) === "0x00") value = "0x" + value.substring(4);`
expressed on the digit part (everything after `"0x"`): the string length
exceeds 4 exactly when more than two digit characters remain. -/
def trimPairs : List Char → List Char
  | '0' :: '0' :: c :: rest => trimPairs (c :: rest)
  | ds => ds

/-- `toHex` on a string that does not begin with `"-"`
(bignumber.ts lines 226-240). -/
def toHexCore (s : List Char) : List Char :=
  -- Add a "0x" prefix if missing
  let v := if s.take 2 = ['0', 'x'] then s else '0' :: 'x' :: s
  -- Normalize zero
  if v = ['0', 'x'] then ['0', 'x', '0', '0']
  else
    -- Make the string even length
    let w := if v.length % 2 = 1 then '0' :: 'x' :: '0' :: v.drop 2 else v
    -- Trim to smallest even-length string
    '0' :: 'x' :: trimPairs (w.drop 2)

/-- `toHex` (bignumber.ts lines 200-241) on strings.  `none` models the
`throwArgumentError("invalid hex", ...)` raised on a double negative sign.
In the source the negative branch recurses on the positive component, which
cannot begin with `"-"` again, so that recursive call is `toHexCore`. -/
def toHex (s : List Char) : Option (List Char) :=
  -- `value[0] === "-"`
  if s.head? = some '-' then
    -- strip the sign; reject a second sign; normalize the positive
    -- component; do not allow "-0x00"
    if s.tail.head? = some '-' then none
    else
      let v := toHexCore s.tail
      if v = ['0', 'x', '0', '0'] then some v else some ('-' :: v)
  else some (toHexCore s)

/-! ## The canonical-form predicate (spec §3, data-model invariants) -/

/-- Canonical non-negative form: `0x` followed by a nonempty, even-length,
lowercase hex digit string with no superfluous leading `00` byte pair. -/
def canonicalPos (s : List Char) : Bool :=
  s.take 2 == ['0', 'x'] &&
    (!(s.drop 2).isEmpty && (s.drop 2).all isLowerHexB &&
      ((s.drop 2).length % 2 == 0) &&
      (((s.drop 2).length == 2) || !((s.drop 2).take 2 == ['0', '0'])))

/-- Canonical form: optional sign on a canonical non-negative form, and the
sign never precedes the zero form `0x00`. -/
def canonicalHex (s : List Char) : Bool :=
  if s.head? = some '-' then canonicalPos s.tail && !(s.tail == ['0', 'x', '0', '0'])
  else canonicalPos s

/-! ## Regex tests used by `BigNumber.from` and the bytes collaborators -/

/-- `s.match(/^-?[0-9]+$/)` (anchored decimal). -/
def matchesDecimal (s : List Char) : Bool :=
  if s.head? = some '-' then !s.tail.isEmpty && s.tail.all isDigitB
  else !s.isEmpty && s.all isDigitB

/-- `s.match` against `-?0x[0-9a-f]+` with flag `i`: the regex is
*unanchored*, so a match
exists somewhere in the string exactly when `0x` (or `0X`), followed by at
least one case-insensitive hex digit, occurs at some position (the optional
sign never affects whether a match exists). -/
def hasHexMatch : List Char → Bool
  | [] => false
  | c :: rest =>
    (c == '0' &&
      (match rest with
       | x :: d :: _ => (x == 'x' || x == 'X') && isHexCIB d
       | _ => false)) || hasHexMatch rest

/-- The anchored all-lowercase hex shape `^-?0x[0-9a-f]+$` (the canonical
acceptance set the spec describes for hex strings). -/
def anchoredLowerHexPos (s : List Char) : Bool :=
  s.take 2 == ['0', 'x'] && !(s.drop 2).isEmpty && (s.drop 2).all isLowerHexB

def anchoredLowerHex (s : List Char) : Bool :=
  if s.head? = some '-' then anchoredLowerHexPos s.tail else anchoredLowerHexPos s

/-- Modelled from the spec: the external hex-string validator of the bytes
collaborator (`isHexString` of `@ethersproject/bytes`, not under `src/`):
a string matching `^0x[0-9A-Fa-f]*$` (no sign; an empty digit part is
allowed). -/
def isHexStringB (s : List Char) : Bool :=
  s.take 2 == ['0', 'x'] && (s.drop 2).all isHexCIB

/-- Modelled from the spec: the external byte-sequence-to-hex utility
(`hexlify` of `@ethersproject/bytes`): two lowercase hex digits per byte
after a `0x` prefix, no sign. -/
def hexlify (bs : List Nat) : List Char :=
  '0' :: 'x' :: (bs.map (fun b => [Nat.digitChar (b / 16 % 16), Nat.digitChar (b % 16)])).flatten

/-! ## The value type and the construction dispatcher -/

/-- Error taxonomy at the granularity the claims distinguish.
`invalidArgument` models `errors.throwArgumentError` (with its message),
`numericFault` models `throwFault` (bignumber.ts lines 255-260) with the
`fault` and `operation` strings, and `engineError` models a bn.js value
outside the engine's domain (the spec assumes the engine is only applied
to well-formed values). -/
inductive JsError where
  | invalidArgument (message : String)
  | numericFault (fault : String) (operation : String)
  | engineError
deriving DecidableEq, Repr

/-- The value type: the single data field is the hex string `_hex`
(`_isBigNumber` is constantly `true` and carries no information). -/
structure BigNumber where
  _hex : List Char
deriving DecidableEq, Repr

instance {ε α : Type} [DecidableEq ε] [DecidableEq α] : DecidableEq (Except ε α) := fun x y =>
  match x, y with
  | .ok a, .ok b => if h : a = b then .isTrue (by rw [h]) else .isFalse (by simp [h])
  | .error a, .error b => if h : a = b then .isTrue (by rw [h]) else .isFalse (by simp [h])
  | .ok _, .error _ => .isFalse (by simp)
  | .error _, .ok _ => .isFalse (by simp)

/-- `MAX_SAFE = 0x1fffffffffffff` (bignumber.ts line 19). -/
def MAX_SAFE : Int := 9007199254740991

/-- The input shapes `BigNumber.from` dispatches on (the `typeof`/duck-type
chain of bignumber.ts lines 146-193):  an existing `BigNumber`; a string;
an integral number; a bigint; a byte sequence (entries are byte values); a
non-BigNumber object carrying a `_hex` string field; a non-BigNumber object
whose `toHexString()` method returns the given string; anything else
(including objects whose `toHexString()` returns a non-string). -/
inductive BValue where
  | bn (b : BigNumber)
  | str (s : List Char)
  | num (n : Int)
  | bigint (z : Int)
  | bytes (bs : List Nat)
  | objHex (h : List Char)
  | objToHex (s : List Char)
  | other
deriving DecidableEq, Repr

/-- The string branch of `BigNumber.from` (bignumber.ts lines 149-159).
The hex test comes first and is unanchored; a matching string is passed to
`toHex` unvalidated.  Otherwise an anchored decimal string is parsed by the
engine and rendered through `toHex` (the two `invalidArgument "invalid
BigNumber string"` fallbacks inside the decimal branch are unreachable:
a matched decimal string always parses, and its rendering never has a
double sign). -/
def fromStr (s : List Char) : Except JsError BigNumber :=
  if hasHexMatch s then
    match toHex s with
    | some h => .ok ⟨h⟩
    | none => .error (.invalidArgument "invalid hex")
  else if matchesDecimal s then
    match parseDecimal s with
    | some z =>
      match toHex (intToHexStr z) with
      | some h => .ok ⟨h⟩
      | none => .error (.invalidArgument "invalid BigNumber string")
    | none => .error (.invalidArgument "invalid BigNumber string")
  else .error (.invalidArgument "invalid BigNumber string")

/-- `BigNumber.from` (bignumber.ts lines 146-193). -/
def BigNumber.«from» : BValue → Except JsError BigNumber
  | .bn b => .ok b
  | .str s => fromStr s
  | .num n =>
    -- integral numbers only are modelled, so `value % 1` never faults;
    -- `String(value)` of an in-range integral number is its decimal string
    if MAX_SAFE ≤ n ∨ n ≤ -MAX_SAFE then
      .error (.numericFault "overflow" "BigNumber.from")
    else fromStr (intToDecStr n)
  | .bigint z => fromStr (intToDecStr z)
  | .bytes bs => fromStr (hexlify bs)
  | .objHex h =>
    -- `value._hex && isHexString(value._hex)`: the field must be truthy
    -- (nonempty) and a valid hex string; it is then re-dispatched
    if !h.isEmpty && isHexStringB h then fromStr h
    else .error (.invalidArgument "invalid BigNumber value")
  | .objToHex s => fromStr s
  | .other => .error (.invalidArgument "invalid BigNumber value")

/-- `isBigNumberish` (bignumber.ts lines 24-33).  `isHexString` only holds
of strings, and `isBytes` rejects strings and plain objects. -/
def isBigNumberish : BValue → Bool
  | .bn _ => true
  | .num _ => true          -- integral numbers satisfy `(value % 1) === 0`
  | .str s => matchesDecimal s || isHexStringB s
  | .bigint _ => true
  | .bytes _ => true
  | .objHex _ => false
  | .objToHex _ => false
  | .other => false

/-! ## Decoding to the engine and the operation wrappers -/

/-- The hex-string decoding inside `toBN` (bignumber.ts lines 247-253):
`new BN("-" + hex.substring(3), 16)` for a negative canonical string,
`new BN(hex.substring(2), 16)` otherwise. -/
def bnParseHex (h : List Char) : Option Int :=
  if h.head? = some '-' then (parseHexNat (h.drop 3)).map (fun (n : Nat) => -(n : Int))
  else (parseHexNat (h.drop 2)).map (fun (n : Nat) => (n : Int))

/-- `toBN` (bignumber.ts lines 247-253). -/
def toBN (v : BValue) : Except JsError Int :=
  match BigNumber.«from» v with
  | .ok b =>
    match bnParseHex b._hex with
    | some z => .ok z
    | none => .error .engineError
  | .error e => .error e

/-- `toBigNumber` (bignumber.ts lines 243-245): re-encode an engine value
through `toHex` and re-dispatch through `BigNumber.from`. -/
def toBigNumber (z : Int) : Except JsError BigNumber :=
  match toHex (intToHexStr z) with
  | some h => BigNumber.«from» (.str h)
  | none => .error (.invalidArgument "invalid hex")

def BigNumber.toHexString (b : BigNumber) : List Char := b._hex

/-- `isZero` (line 121): decode and compare with zero. -/
def BigNumber.isZero (b : BigNumber) : Except JsError Bool :=
  match bnParseHex b._hex with
  | some z => .ok (decide (z = 0))
  | none => .error .engineError

def BigNumber.add (a : BigNumber) (other : BValue) : Except JsError BigNumber := do
  let x ← toBN (.bn a)
  let y ← toBN other
  toBigNumber (x + y)

def BigNumber.sub (a : BigNumber) (other : BValue) : Except JsError BigNumber := do
  let x ← toBN (.bn a)
  let y ← toBN other
  toBigNumber (x - y)

/-- `div` (lines 77-83): normalize the divisor, fault before delegating if
it is zero, then delegate (bn.js division truncates toward zero). -/
def BigNumber.div (a : BigNumber) (other : BValue) : Except JsError BigNumber := do
  let o ← BigNumber.«from» other
  let z ← o.isZero
  if z then .error (.numericFault "division by zero" "div")
  else do
    let x ← toBN (.bn a)
    let y ← toBN other
    toBigNumber (Int.tdiv x y)

def BigNumber.mul (a : BigNumber) (other : BValue) : Except JsError BigNumber := do
  let x ← toBN (.bn a)
  let y ← toBN other
  toBigNumber (x * y)

/-- bn.js `mod` keeps the sign of the dividend (`Int.tmod`). -/
def BigNumber.mod (a : BigNumber) (other : BValue) : Except JsError BigNumber := do
  let x ← toBN (.bn a)
  let y ← toBN other
  toBigNumber (Int.tmod x y)

/-- bn.js `pow` uses the exponent's magnitude digits; claims only concern
the canonical form of the result. -/
def BigNumber.pow (a : BigNumber) (other : BValue) : Except JsError BigNumber := do
  let x ← toBN (.bn a)
  let y ← toBN other
  toBigNumber (x ^ y.toNat)

/-- bn.js `maskn` keeps the low `bits` bits; it asserts a non-negative
receiver. -/
def BigNumber.maskn (a : BigNumber) (bits : Nat) : Except JsError BigNumber := do
  let x ← toBN (.bn a)
  if x < 0 then .error .engineError
  else toBigNumber (x % (2 ^ bits : Int))

/-- bn.js `toTwos(width)`: two's-complement encoding of an in-range value. -/
def BigNumber.toTwos (a : BigNumber) (width : Nat) : Except JsError BigNumber := do
  let x ← toBN (.bn a)
  toBigNumber (if x < 0 then 2 ^ width + x else x)

/-- bn.js `fromTwos(width)`: decode two's complement at the given width. -/
def BigNumber.fromTwos (a : BigNumber) (width : Nat) : Except JsError BigNumber := do
  let x ← toBN (.bn a)
  toBigNumber (if x.toNat.testBit (width - 1) then x - 2 ^ width else x)

/-- `abs` (lines 62-67): pure string manipulation on the stored hex. -/
def BigNumber.abs (a : BigNumber) : Except JsError BigNumber :=
  if a._hex.head? = some '-' then BigNumber.«from» (.str a._hex.tail)
  else .ok a

def BigNumber.eq (a : BigNumber) (other : BValue) : Except JsError Bool := do
  let x ← toBN (.bn a)
  let y ← toBN other
  return decide (x = y)

def BigNumber.lt (a : BigNumber) (other : BValue) : Except JsError Bool := do
  let x ← toBN (.bn a)
  let y ← toBN other
  return decide (x < y)

def BigNumber.lte (a : BigNumber) (other : BValue) : Except JsError Bool := do
  let x ← toBN (.bn a)
  let y ← toBN other
  return decide (x ≤ y)

def BigNumber.gt (a : BigNumber) (other : BValue) : Except JsError Bool := do
  let x ← toBN (.bn a)
  let y ← toBN other
  return decide (x > y)

def BigNumber.gte (a : BigNumber) (other : BValue) : Except JsError Bool := do
  let x ← toBN (.bn a)
  let y ← toBN other
  return decide (x ≥ y)

/-- `toString` (lines 134-140): the base-10 engine rendering.  (The
`arguments.length` guard concerns JavaScript varargs and has no model-level
counterpart; no claim concerns it.) -/
def BigNumber.toString (b : BigNumber) : Except JsError (List Char) :=
  match bnParseHex b._hex with
  | some z => .ok (intToDecStr z)
  | none => .error .engineError

/-- Strip superfluous leading zeros from a digit string (keeping a single
`0`). -/
def stripZeros : List Char → List Char
  | '0' :: c :: rest => stripZeros (c :: rest)
  | ds => ds

/-- The canonical decimal rendering of a signed decimal string: strip
superfluous leading zeros, and drop the sign when the digits reduce to
`0`. -/
def canonDec (s : List Char) : List Char :=
  if s.head? = some '-' then
    if stripZeros s.tail = ['0'] then ['0'] else '-' :: stripZeros s.tail
  else stripZeros s

/-! ## Character facts -/

theorem char_eq_of_toNat_eq {a b : Char} (h : a.toNat = b.toNat) : a = b :=
  Char.ext (UInt32.toNat.inj h)

theorem digitChar_toNat {v : Nat} (h : v < 16) :
    (Nat.digitChar v).toNat = if v < 10 then v + 48 else v + 87 := by
  interval_cases v <;> decide

theorem hexVal_digitChar {v : Nat} (h : v < 16) : hexVal (Nat.digitChar v) = some v := by
  interval_cases v <;> decide

theorem digitChar_lowerHex {v : Nat} (h : v < 16) : isLowerHexB (Nat.digitChar v) = true := by
  interval_cases v <;> decide

theorem digitChar_digit {v : Nat} (h : v < 10) : isDigitB (Nat.digitChar v) = true := by
  interval_cases v <;> decide

theorem digitChar_ne_zero {v : Nat} (h0 : v ≠ 0) (h : v < 16) : Nat.digitChar v ≠ '0' := by
  interval_cases v <;> simp_all <;> decide

theorem lowerHex_exists_val {c : Char} (h : isLowerHexB c = true) :
    ∃ v, hexVal c = some v ∧ v < 16 ∧ Nat.digitChar v = c := by
  simp only [isLowerHexB, isDigitB, Bool.or_eq_true, Bool.and_eq_true,
    decide_eq_true_eq] at h
  rcases h with ⟨h1, h2⟩ | ⟨h1, h2⟩
  · refine ⟨c.toNat - 48, ?_, by omega, ?_⟩
    · simp only [hexVal]
      rw [if_pos (by simp only [Bool.and_eq_true, decide_eq_true_eq]; omega)]
    · apply char_eq_of_toNat_eq
      rw [digitChar_toNat (by omega), if_pos (by omega)]
      omega
  · refine ⟨c.toNat - 87, ?_, by omega, ?_⟩
    · simp only [hexVal]
      rw [if_neg (by simp only [Bool.and_eq_true, decide_eq_true_eq]; omega),
        if_pos (by simp only [Bool.and_eq_true, decide_eq_true_eq]; omega)]
    · apply char_eq_of_toNat_eq
      rw [digitChar_toNat (by omega), if_neg (by omega)]
      omega

theorem digit_exists_val {c : Char} (h : isDigitB c = true) :
    ∃ v, hexVal c = some v ∧ v < 10 ∧ Nat.digitChar v = c := by
  have hl : isLowerHexB c = true := by
    simp only [isLowerHexB, Bool.or_eq_true]
    exact Or.inl h
  obtain ⟨v, hv, hv16, hd⟩ := lowerHex_exists_val hl
  simp only [isDigitB, Bool.and_eq_true, decide_eq_true_eq] at h
  refine ⟨v, hv, ?_, hd⟩
  -- the digit's value is below 10 because the character code is below 58
  by_contra hge
  have := digitChar_toNat hv16
  rw [hd, if_neg (by omega)] at this
  omega

/-! ## Base-conversion facts -/

theorem natToBaseAux_irrel {b : Nat} (hb : 2 ≤ b) :
    ∀ f g n, n < f → n < g → natToBaseAux b f n = natToBaseAux b g n := by
  intro f
  induction f with
  | zero => intro g n h; omega
  | succ f ih =>
    intro g n hf hg
    cases g with
    | zero => omega
    | succ g =>
      simp only [natToBaseAux]
      split
      · rfl
      · rename_i hnb
        have hdiv : n / b < n := Nat.div_lt_self (by omega) (by omega)
        rw [ih g (n / b) (by omega) (by omega)]

theorem natToBase_eq {b : Nat} (hb : 2 ≤ b) (n : Nat) :
    natToBase b n = if n < b then [Nat.digitChar n]
      else natToBase b (n / b) ++ [Nat.digitChar (n % b)] := by
  show natToBaseAux b (n + 1) n = _
  simp only [natToBaseAux]
  split
  · rfl
  · rename_i hnb
    have hdiv : n / b < n := Nat.div_lt_self (by omega) (by omega)
    rw [natToBaseAux_irrel hb n (n / b + 1) (n / b) (by omega) (by omega)]
    rfl

theorem natToBase_ne_nil {b : Nat} (hb : 2 ≤ b) (n : Nat) : natToBase b n ≠ [] := by
  rw [natToBase_eq hb]
  split <;> simp

theorem natToBase_digits {b : Nat} (hb : 2 ≤ b) (hb16 : b ≤ 16) :
    ∀ n, ∀ c ∈ natToBase b n, ∃ v, hexVal c = some v ∧ v < b ∧ Nat.digitChar v = c := by
  intro n
  induction n using Nat.strong_induction_on with
  | _ n ih =>
    intro c hc
    rw [natToBase_eq hb] at hc
    split at hc
    · rename_i hlt
      simp only [List.mem_singleton] at hc
      subst hc
      exact ⟨n, hexVal_digitChar (by omega), hlt, rfl⟩
    · rename_i hnb
      have hdiv : n / b < n := Nat.div_lt_self (by omega) (by omega)
      rcases List.mem_append.mp hc with hm | hm
      · exact ih (n / b) hdiv c hm
      · simp only [List.mem_singleton] at hm
        subst hm
        exact ⟨n % b, hexVal_digitChar (by have : n % b < b := Nat.mod_lt n (by omega); omega),
          Nat.mod_lt n (by omega), rfl⟩

theorem natToBase_head {b : Nat} (hb : 2 ≤ b) (hb16 : b ≤ 16) :
    ∀ n, n ≠ 0 → ∃ c t, natToBase b n = c :: t ∧ c ≠ '0' := by
  intro n
  induction n using Nat.strong_induction_on with
  | _ n ih =>
    intro hn
    rw [natToBase_eq hb]
    split
    · rename_i hlt
      exact ⟨Nat.digitChar n, [], rfl, digitChar_ne_zero hn (by omega)⟩
    · rename_i hnb
      have hdiv : n / b < n := Nat.div_lt_self (by omega) (by omega)
      have hne : n / b ≠ 0 := by
        have := Nat.div_pos (Nat.le_of_not_lt hnb) (by omega)
        omega
      obtain ⟨c, t, heq, hc⟩ := ih (n / b) hdiv hne
      exact ⟨c, t ++ [Nat.digitChar (n % b)], by rw [heq]; rfl, hc⟩

theorem parseBaseAux_append (b : Nat) (xs ys : List Char) :
    ∀ acc, parseBaseAux b acc (xs ++ ys) =
      (parseBaseAux b acc xs).bind (fun a => parseBaseAux b a ys) := by
  induction xs with
  | nil => intro acc; simp [parseBaseAux]
  | cons c cs ih =>
    intro acc
    simp only [List.cons_append, parseBaseAux]
    cases hexVal c with
    | none => rfl
    | some d =>
      simp only
      split
      · exact ih _
      · rfl

theorem parseBaseAux_natToBase {b : Nat} (hb : 2 ≤ b) (hb16 : b ≤ 16) :
    ∀ n acc, parseBaseAux b acc (natToBase b n) =
      some (acc * b ^ (natToBase b n).length + n) := by
  intro n
  induction n using Nat.strong_induction_on with
  | _ n ih =>
    intro acc
    rw [natToBase_eq hb]
    split
    · rename_i hlt
      simp only [parseBaseAux, hexVal_digitChar (by omega : n < 16), if_pos hlt,
        List.length_singleton, pow_one]
    · rename_i hnb
      have hdiv : n / b < n := Nat.div_lt_self (by omega) (by omega)
      rw [parseBaseAux_append, ih (n / b) hdiv acc]
      have hvb : n % b < b := Nat.mod_lt n (by omega)
      simp only [Option.bind_some, Option.some_bind, parseBaseAux,
        hexVal_digitChar (by omega : n % b < 16), if_pos hvb, List.length_append,
        List.length_singleton]
      congr 1
      have hmod : b * (n / b) + n % b = n := Nat.div_add_mod n b
      have key : ∀ k a : Nat, (a * b ^ k + n / b) * b + n % b = a * b ^ (k + 1) + n := by
        intro k a
        calc (a * b ^ k + n / b) * b + n % b
            = a * (b ^ k * b) + (b * (n / b) + n % b) := by ring
          _ = a * b ^ (k + 1) + n := by rw [hmod, pow_succ]
      exact key _ _

theorem parse_natToBase {b : Nat} (hb : 2 ≤ b) (hb16 : b ≤ 16) (n : Nat) :
    parseBaseAux b 0 (natToBase b n) = some n := by
  rw [parseBaseAux_natToBase hb hb16 n 0, Nat.zero_mul, Nat.zero_add]

theorem natToBase_range {b : Nat} (hb : 2 ≤ b) (hb16 : b ≤ 16) :
    ∀ ds : List Char, ds ≠ [] →
      (∀ c ∈ ds, ∃ v, hexVal c = some v ∧ v < b ∧ Nat.digitChar v = c) →
      (∀ t, ds ≠ '0' :: t) → ∃ n, natToBase b n = ds := by
  intro ds
  induction ds using List.reverseRecOn with
  | nil => intro h; exact absurd rfl h
  | append_singleton xs c ih =>
    intro _ hdig hhead
    obtain ⟨v, hv, hvb, hdc⟩ := hdig c (by simp)
    cases xs with
    | nil =>
      refine ⟨v, ?_⟩
      rw [natToBase_eq hb, if_pos hvb, hdc]
      rfl
    | cons y ys =>
      have hxs : ∃ m, natToBase b m = y :: ys := by
        apply ih (by simp)
        · intro c' hc'
          refine hdig c' ?_
          simp only [List.cons_append, List.mem_cons, List.mem_append] at hc' ⊢
          tauto
        · intro t ht
          exact hhead (t ++ [c]) (by rw [ht]; rfl)
      obtain ⟨m, hm⟩ := hxs
      have hm0 : m ≠ 0 := by
        intro h0
        subst h0
        rw [natToBase_eq hb, if_pos (by omega)] at hm
        have : Nat.digitChar 0 = y := by
          have := congrArg (fun l => l.head?) hm
          simpa using this
        exact hhead (ys ++ [c]) (by rw [← this]; rfl)
      refine ⟨m * b + v, ?_⟩
      have hge : ¬ m * b + v < b := by
        have : 1 * b ≤ m * b := Nat.mul_le_mul_right b (by omega)
        omega
      rw [natToBase_eq hb, if_neg hge]
      have hdivq : (m * b + v) / b = m := by
        rw [Nat.add_comm, Nat.add_mul_div_right _ _ (by omega : 0 < b),
          Nat.div_eq_of_lt hvb, Nat.zero_add]
      have hmodq : (m * b + v) % b = v := by
        rw [Nat.add_comm, Nat.add_mul_mod_self_right, Nat.mod_eq_of_lt hvb]
      rw [hdivq, hmodq, hm, hdc]

theorem parseBaseAux_cons (b acc : Nat) (c : Char) (cs : List Char) :
    parseBaseAux b acc (c :: cs) =
      match hexVal c with
      | some d => if d < b then parseBaseAux b (acc * b + d) cs else none
      | none => none := rfl

theorem stripZeros_noop {d : Char} (tail : List Char) (hd : d ≠ '0') :
    stripZeros (d :: tail) = d :: tail := by
  cases tail with
  | nil =>
    rw [stripZeros]
    intro c rest h
    simp at h
  | cons e tail' =>
    rw [stripZeros]
    intro c rest h
    injection h with h1 _
    exact hd h1

theorem natToBase_strip {b : Nat} (hb : 2 ≤ b) (hb16 : b ≤ 16) :
    ∀ ds : List Char, ds ≠ [] →
      (∀ c ∈ ds, ∃ v, hexVal c = some v ∧ v < b ∧ Nat.digitChar v = c) →
      ∀ n, parseBaseAux b 0 ds = some n → natToBase b n = stripZeros ds := by
  intro ds
  induction ds using stripZeros.induct with
  | case1 c rest ih =>
    intro _ hdig n hp
    have h0 : hexVal '0' = some 0 := by decide
    rw [stripZeros]
    rw [parseBaseAux_cons, h0] at hp
    simp only at hp
    rw [if_pos (by omega : 0 < b), Nat.zero_mul, Nat.zero_add] at hp
    exact ih (by simp) (fun c' hc' => hdig c' (by simp [hc'])) n hp
  | case2 ds hnotzz =>
    intro hne hdig n hp
    cases ds with
    | nil => exact absurd rfl hne
    | cons d tail =>
      by_cases hd : d = '0'
      · subst hd
        -- the catch-all case with a leading zero forces a singleton "0"
        cases tail with
        | nil =>
          have h0 : hexVal '0' = some 0 := by decide
          rw [parseBaseAux_cons, h0] at hp
          simp only at hp
          rw [if_pos (by omega : 0 < b), Nat.zero_mul, Nat.zero_add] at hp
          simp only [parseBaseAux] at hp
          have hn : n = 0 := by simpa using hp.symm
          subst hn
          rw [natToBase_eq hb, if_pos (by omega)]
          rfl
        | cons e tail' => exact absurd rfl (hnotzz e tail')
      · have hrange : ∃ m, natToBase b m = d :: tail := by
          apply natToBase_range hb hb16 _ (by simp) hdig
          intro t ht
          exact hd (by injection ht)
        obtain ⟨m, hm⟩ := hrange
        rw [← hm] at hp
        rw [parse_natToBase hb hb16 m] at hp
        have hn : n = m := by simpa using hp.symm
        subst hn
        rw [hm, stripZeros_noop _ hd]

/-! ## Facts about the canonical encoder -/

theorem trimPairs_cons2 (c : Char) (rest : List Char) :
    trimPairs ('0' :: '0' :: c :: rest) = trimPairs (c :: rest) := rfl

theorem trimPairs_noop (ds : List Char)
    (h : ∀ c rest, ds ≠ '0' :: '0' :: c :: rest) : trimPairs ds = ds := by
  rw [trimPairs]
  intro c rest hh
  exact h c rest hh

theorem trimPairs_props (ds : List Char) :
    (∀ c ∈ trimPairs ds, c ∈ ds) ∧ (trimPairs ds).length % 2 = ds.length % 2 ∧
      (ds ≠ [] → trimPairs ds ≠ []) ∧
      ∀ c rest, trimPairs ds ≠ '0' :: '0' :: c :: rest := by
  induction ds using trimPairs.induct with
  | case1 c rest ih =>
    obtain ⟨ih1, ih2, ih3, ih4⟩ := ih
    rw [trimPairs_cons2]
    refine ⟨?_, ?_, ?_, ih4⟩
    · intro c' hc'
      have := ih1 c' hc'
      simp only [List.mem_cons] at this ⊢
      tauto
    · simp only [List.length_cons] at ih2 ⊢
      omega
    · intro _
      exact ih3 (by simp)
  | case2 ds h =>
    rw [trimPairs_noop ds (fun c rest hh => h c rest hh)]
    exact ⟨fun c hc => hc, rfl, fun h => h, fun c rest hh => h c rest hh⟩

theorem take_two_eq {s : List Char} {a b : Char} (h : s.take 2 = [a, b]) :
    ∃ rest, s = a :: b :: rest := by
  cases s with
  | nil => simp at h
  | cons x t =>
    cases t with
    | nil => simp at h
    | cons y r =>
      simp only [List.take, List.take_zero] at h
      injection h with h1 h2
      injection h2 with h2 _
      exact ⟨r, by rw [h1, h2]⟩

/-- The shape of every `toHexCore` result: a `0x` head, a nonempty
even-length digit part, and no leading `00` pair left to trim. -/
theorem toHexCore_shape (s : List Char) :
    ∃ t, toHexCore s = '0' :: 'x' :: t ∧ t ≠ [] ∧ t.length % 2 = 0 ∧
      (∀ c rest, t ≠ '0' :: '0' :: c :: rest) := by
  unfold toHexCore
  by_cases hp : s.take 2 = ['0', 'x']
  · obtain ⟨vs, hvs⟩ := take_two_eq hp
    rw [if_pos hp]
    by_cases hz : s = ['0', 'x']
    · rw [if_pos hz]
      exact ⟨['0', '0'], rfl, by simp, by simp, by intro c rest h; simp at h⟩
    · rw [if_neg hz]
      have hvs_ne : vs ≠ [] := by
        intro h0
        exact hz (by rw [hvs, h0])
      by_cases hodd : s.length % 2 = 1
      · rw [if_pos hodd]
        have hlen : ('0' :: vs).length % 2 = 0 := by
          rw [hvs] at hodd
          simp only [List.length_cons] at hodd ⊢
          omega
        have hdrop : s.drop 2 = vs := by rw [hvs]; rfl
        rw [hdrop]
        obtain ⟨m1, m2, m3, m4⟩ := trimPairs_props ('0' :: vs)
        exact ⟨trimPairs ('0' :: vs), rfl, m3 (by simp), by rw [m2]; exact hlen, m4⟩
      · rw [if_neg hodd]
        have hdrop : s.drop 2 = vs := by rw [hvs]; rfl
        show ∃ t, '0' :: 'x' :: trimPairs (s.drop 2) = '0' :: 'x' :: t ∧ _
        rw [hdrop]
        have hlen : vs.length % 2 = 0 := by
          rw [hvs] at hodd
          simp only [List.length_cons] at hodd ⊢
          omega
        obtain ⟨m1, m2, m3, m4⟩ := trimPairs_props vs
        exact ⟨trimPairs vs, rfl, m3 hvs_ne, by rw [m2]; exact hlen, m4⟩
  · rw [if_neg hp]
    by_cases hz : '0' :: 'x' :: s = ['0', 'x']
    · rw [if_pos hz]
      exact ⟨['0', '0'], rfl, by simp, by simp, by intro c rest h; simp at h⟩
    · rw [if_neg hz]
      have hs_ne : s ≠ [] := by
        intro h0
        exact hz (by rw [h0])
      by_cases hodd : ('0' :: 'x' :: s).length % 2 = 1
      · rw [if_pos hodd]
        have hlen : ('0' :: s).length % 2 = 0 := by
          simp only [List.length_cons] at hodd ⊢
          omega
        obtain ⟨m1, m2, m3, m4⟩ := trimPairs_props ('0' :: s)
        exact ⟨trimPairs ('0' :: s), rfl, m3 (by simp), by rw [m2]; exact hlen, m4⟩
      · rw [if_neg hodd]
        have hlen : s.length % 2 = 0 := by
          simp only [List.length_cons] at hodd ⊢
          omega
        obtain ⟨m1, m2, m3, m4⟩ := trimPairs_props s
        exact ⟨trimPairs s, rfl, m3 hs_ne, by rw [m2]; exact hlen, m4⟩

theorem toHexCore_prefixed (ds : List Char) (hne : ds ≠ []) :
    toHexCore ('0' :: 'x' :: ds) =
      '0' :: 'x' :: trimPairs (if ds.length % 2 = 1 then '0' :: ds else ds) := by
  unfold toHexCore
  rw [if_pos (show ('0' :: 'x' :: ds).take 2 = ['0', 'x'] from rfl)]
  rw [if_neg (show ¬('0' :: 'x' :: ds = ['0', 'x']) by simp [hne])]
  by_cases hodd : ds.length % 2 = 1
  · rw [if_pos (show ('0' :: 'x' :: ds).length % 2 = 1 by
      simp only [List.length_cons]; omega)]
    rw [if_pos hodd]
    rfl
  · rw [if_neg (show ¬(('0' :: 'x' :: ds).length % 2 = 1) by
      simp only [List.length_cons]; omega)]
    rw [if_neg hodd]
    rfl

theorem toHexCore_unprefixed (ds : List Char) (hne : ds ≠ [])
    (hnx : ds.take 2 ≠ ['0', 'x']) :
    toHexCore ds =
      '0' :: 'x' :: trimPairs (if ds.length % 2 = 1 then '0' :: ds else ds) := by
  unfold toHexCore
  rw [if_neg hnx]
  rw [if_neg (show ¬('0' :: 'x' :: ds = ['0', 'x']) by simp [hne])]
  by_cases hodd : ds.length % 2 = 1
  · rw [if_pos (show ('0' :: 'x' :: ds).length % 2 = 1 by
      simp only [List.length_cons]; omega)]
    rw [if_pos hodd]
    rfl
  · rw [if_neg (show ¬(('0' :: 'x' :: ds).length % 2 = 1) by
      simp only [List.length_cons]; omega)]
    rw [if_neg hodd]
    rfl

theorem canonicalPos_iff (s : List Char) :
    canonicalPos s = true ↔ ∃ ds, s = '0' :: 'x' :: ds ∧ ds ≠ [] ∧
      (∀ c ∈ ds, isLowerHexB c = true) ∧ ds.length % 2 = 0 ∧
      (ds.length = 2 ∨ ds.take 2 ≠ ['0', '0']) := by
  unfold canonicalPos
  constructor
  · intro h
    simp only [Bool.and_eq_true, beq_iff_eq, Bool.or_eq_true, Bool.not_eq_true',
      beq_eq_false_iff_ne, ne_eq, List.all_eq_true, List.isEmpty_eq_false] at h
    obtain ⟨h1, hrestt⟩ := h
    obtain ⟨rest, hrest⟩ := take_two_eq h1
    have hdrop : s.drop 2 = rest := by rw [hrest]; rfl
    rw [hdrop] at hrestt
    exact ⟨rest, hrest, by tauto, by tauto, by tauto, by tauto⟩
  · rintro ⟨ds, rfl, h1, h2, h3, h4⟩
    simp only [List.take_succ_cons, List.take_zero, List.drop_succ_cons, List.drop_zero,
      Bool.and_eq_true, beq_iff_eq, Bool.or_eq_true, Bool.not_eq_true',
      beq_eq_false_iff_ne, ne_eq, List.all_eq_true, List.isEmpty_eq_false]
    tauto

theorem canonicalPos_of_trim (ds : List Char) (hne : ds ≠ [])
    (heven : ds.length % 2 = 0) (hall : ∀ c ∈ ds, isLowerHexB c = true) :
    canonicalPos ('0' :: 'x' :: trimPairs ds) = true := by
  obtain ⟨m1, m2, m3, m4⟩ := trimPairs_props ds
  rw [canonicalPos_iff]
  refine ⟨trimPairs ds, rfl, m3 hne, fun c hc => hall c (m1 c hc), by omega, ?_⟩
  by_cases h2 : (trimPairs ds).length = 2
  · exact Or.inl h2
  · refine Or.inr ?_
    intro htake
    obtain ⟨rest, hrest⟩ := take_two_eq htake
    cases rest with
    | nil =>
      rw [hrest] at h2
      simp at h2
    | cons c' rest' => exact m4 c' rest' hrest

theorem toHexCore_idem (s : List Char) : toHexCore (toHexCore s) = toHexCore s := by
  obtain ⟨t, heq, hne, heven, hmin⟩ := toHexCore_shape s
  rw [heq, toHexCore_prefixed t hne, if_neg (by omega), trimPairs_noop t hmin]

theorem toHex_some {s t : List Char} (h : toHex s = some t) :
    (∃ u, t = toHexCore u) ∨
      (∃ u, t = '-' :: toHexCore u ∧ toHexCore u ≠ ['0', 'x', '0', '0']) := by
  unfold toHex at h
  by_cases h1 : s.head? = some '-'
  · rw [if_pos h1] at h
    by_cases h2 : s.tail.head? = some '-'
    · rw [if_pos h2] at h
      exact absurd h (by simp)
    · rw [if_neg h2] at h
      change (if toHexCore s.tail = ['0', 'x', '0', '0'] then some (toHexCore s.tail)
        else some ('-' :: toHexCore s.tail)) = some t at h
      by_cases h3 : toHexCore s.tail = ['0', 'x', '0', '0']
      · rw [if_pos h3] at h
        injection h with h
        exact Or.inl ⟨s.tail, h.symm⟩
      · rw [if_neg h3] at h
        injection h with h
        exact Or.inr ⟨s.tail, h.symm, h3⟩
  · rw [if_neg h1] at h
    injection h with h
    exact Or.inl ⟨s, h.symm⟩

theorem toHex_idem {s t : List Char} (h : toHex s = some t) : toHex t = some t := by
  rcases toHex_some h with ⟨u, rfl⟩ | ⟨u, rfl, hnz⟩
  · obtain ⟨w, hw, _⟩ := toHexCore_shape u
    unfold toHex
    rw [if_neg (show ¬((toHexCore u).head? = some '-') by rw [hw]; simp)]
    rw [toHexCore_idem]
  · obtain ⟨w, hw, _⟩ := toHexCore_shape u
    unfold toHex
    rw [if_pos (show ('-' :: toHexCore u).head? = some '-' from rfl)]
    rw [if_neg (show ¬(('-' :: toHexCore u).tail.head? = some '-') by
      rw [show ('-' :: toHexCore u).tail = toHexCore u from rfl, hw]; simp)]
    change (if toHexCore ('-' :: toHexCore u).tail = ['0', 'x', '0', '0']
      then some (toHexCore ('-' :: toHexCore u).tail)
      else some ('-' :: toHexCore ('-' :: toHexCore u).tail)) = _
    rw [show ('-' :: toHexCore u).tail = toHexCore u from rfl, toHexCore_idem,
      if_neg hnz]

theorem toHex_ne_neg_zero {s t : List Char} (h : toHex s = some t) :
    t ≠ ['-', '0', 'x', '0', '0'] := by
  rcases toHex_some h with ⟨u, rfl⟩ | ⟨u, rfl, hnz⟩
  · obtain ⟨w, hw, _⟩ := toHexCore_shape u
    rw [hw]
    simp
  · intro hh
    injection hh with _ hh
    exact hnz hh

theorem toHexCore_canonical_fix {s : List Char} (h : canonicalPos s = true) :
    toHexCore s = s := by
  rw [canonicalPos_iff] at h
  obtain ⟨ds, rfl, hne, hall, heven, hmin⟩ := h
  rw [toHexCore_prefixed ds hne, if_neg (by omega), trimPairs_noop]
  intro c rest hh
  rcases hmin with hlen | htake
  · rw [hh] at hlen
    simp only [List.length_cons] at hlen
    omega
  · apply htake
    rw [hh]
    rfl

theorem isLowerHexB_ne_dash {c : Char} (h : isLowerHexB c = true) : c ≠ '-' := by
  intro hc
  subst hc
  exact absurd h (by decide)

theorem lower_take_ne_0x {ds : List Char} (hall : ∀ c ∈ ds, isLowerHexB c = true) :
    ds.take 2 ≠ ['0', 'x'] := by
  intro h
  obtain ⟨rest, hrest⟩ := take_two_eq h
  have : isLowerHexB 'x' = true := hall 'x' (by rw [hrest]; simp)
  exact absurd this (by decide)

theorem anchoredLowerHexPos_iff (s : List Char) :
    anchoredLowerHexPos s = true ↔
      ∃ ds, s = '0' :: 'x' :: ds ∧ ds ≠ [] ∧ ∀ c ∈ ds, isLowerHexB c = true := by
  unfold anchoredLowerHexPos
  constructor
  · intro h
    simp only [Bool.and_eq_true, beq_iff_eq, List.all_eq_true,
      Bool.not_eq_true', List.isEmpty_eq_false] at h
    obtain ⟨⟨h1, h2⟩, h3⟩ := h
    obtain ⟨rest, hrest⟩ := take_two_eq h1
    have hdrop : s.drop 2 = rest := by rw [hrest]; rfl
    rw [hdrop] at h2 h3
    exact ⟨rest, hrest, h2, h3⟩
  · rintro ⟨ds, rfl, h1, h2⟩
    simp only [List.take_succ_cons, List.take_zero, List.drop_succ_cons, List.drop_zero,
      Bool.and_eq_true, beq_iff_eq, List.all_eq_true, Bool.not_eq_true',
      List.isEmpty_eq_false]
    tauto

/-! ## The engine rendering through the encoder -/

theorem natToHex_all (n : Nat) : ∀ c ∈ natToHex n, isLowerHexB c = true := by
  intro c hc
  obtain ⟨v, _, hv16, hd⟩ := natToBase_digits (by norm_num) (by norm_num) n c hc
  rw [← hd]
  exact digitChar_lowerHex (by omega)

theorem natToHex_ne_nil (n : Nat) : natToHex n ≠ [] :=
  natToBase_ne_nil (by norm_num) n

theorem natToHex_head (n : Nat) (hn : n ≠ 0) :
    ∃ c t, natToHex n = c :: t ∧ c ≠ '0' :=
  natToBase_head (by norm_num) (by norm_num) n hn

theorem parseHexNat_cons_zero (ds : List Char) :
    parseHexNat ('0' :: ds) = parseHexNat ds := by
  unfold parseHexNat
  rw [parseBaseAux_cons]
  simp only [show hexVal '0' = some 0 from by decide]
  rw [if_pos (by omega), Nat.zero_mul, Nat.zero_add]

theorem parseHexNat_natToHex (n : Nat) : parseHexNat (natToHex n) = some n :=
  parse_natToBase (by norm_num) (by norm_num) n

/-- The positive engine-rendering path: `toHexCore (bn.toString(16))` is a
canonical positive string whose digit part parses back to the value. -/
theorem toHexCore_natToHex (m : Nat) :
    ∃ T, toHexCore (natToHex m) = '0' :: 'x' :: T ∧ parseHexNat T = some m ∧
      canonicalPos ('0' :: 'x' :: T) = true ∧
      (m ≠ 0 → '0' :: 'x' :: T ≠ ['0', 'x', '0', '0']) := by
  by_cases hm : m = 0
  · subst hm
    refine ⟨['0', '0'], by decide, by decide, by decide, fun h => absurd rfl h⟩
  · have hne := natToHex_ne_nil m
    have hall := natToHex_all m
    obtain ⟨d, tl, hdt, hd0⟩ := natToHex_head m hm
    have hnx := lower_take_ne_0x hall
    rw [toHexCore_unprefixed _ hne hnx]
    set pad := if (natToHex m).length % 2 = 1 then '0' :: natToHex m else natToHex m with hpad
    have htrim : trimPairs pad = pad := by
      apply trimPairs_noop
      intro c rest hh
      rw [hpad] at hh
      split_ifs at hh with hodd
      · rw [hdt] at hh
        injection hh with _ hh
        injection hh with hh _
        exact hd0 hh
      · rw [hdt] at hh
        injection hh with hh _
        exact hd0 hh
    have hparse : parseHexNat pad = some m := by
      rw [hpad]
      split_ifs with hodd
      · rw [parseHexNat_cons_zero, parseHexNat_natToHex]
      · rw [parseHexNat_natToHex]
    have hpad_ne : pad ≠ [] := by
      rw [hpad]
      split_ifs with hodd
      · simp
      · exact hne
    have hpad_all : ∀ c ∈ pad, isLowerHexB c = true := by
      rw [hpad]
      split_ifs with hodd
      · intro c hc
        rcases List.mem_cons.mp hc with rfl | hc
        · decide
        · exact hall c hc
      · exact hall
    have hpad_even : pad.length % 2 = 0 := by
      rw [hpad]
      split_ifs with hodd
      · simp only [List.length_cons]
        omega
      · omega
    have hpad_min : pad.length = 2 ∨ pad.take 2 ≠ ['0', '0'] := by
      refine Or.inr ?_
      intro htake
      obtain ⟨rest, hrest⟩ := take_two_eq htake
      rw [hpad] at hrest
      split_ifs at hrest with hodd
      · rw [hdt] at hrest
        injection hrest with _ hrest
        injection hrest with hrest _
        exact hd0 hrest
      · rw [hdt] at hrest
        injection hrest with hrest _
        exact hd0 hrest
    have hzero : '0' :: 'x' :: pad ≠ ['0', 'x', '0', '0'] := by
      intro hh
      injection hh with _ hh
      injection hh with _ hh
      have h00 : parseHexNat ['0', '0'] = some 0 := by decide
      rw [hh, h00] at hparse
      injection hparse with hparse
      exact hm hparse.symm
    refine ⟨pad, by rw [htrim], hparse, ?_, fun _ => hzero⟩
    rw [canonicalPos_iff]
    exact ⟨pad, rfl, hpad_ne, hpad_all, hpad_even, hpad_min⟩

theorem canonicalHex_pos_head {s : List Char} (h : s.head? ≠ some '-') :
    canonicalHex s = canonicalPos s := by
  unfold canonicalHex
  rw [if_neg h]

theorem canonicalPos_head {s : List Char} (h : canonicalPos s = true) :
    s.head? = some '0' := by
  rw [canonicalPos_iff] at h
  obtain ⟨ds, rfl, _⟩ := h
  rfl

/-- `toHex` on the rendering of any engine value: defined, canonical, and
the result decodes (through the `toBN` hex decoding) back to the value. -/
theorem toHex_render (z : Int) :
    ∃ h, toHex (intToHexStr z) = some h ∧ canonicalHex h = true ∧
      bnParseHex h = some z := by
  by_cases hz : z < 0
  · have hm : z.natAbs ≠ 0 := by omega
    obtain ⟨T, hT, hTp, hTc, hTz⟩ := toHexCore_natToHex z.natAbs
    have hstr : intToHexStr z = '-' :: natToHex z.natAbs := by
      unfold intToHexStr
      rw [if_pos hz]
    refine ⟨'-' :: '0' :: 'x' :: T, ?_, ?_, ?_⟩
    · rw [hstr]
      unfold toHex
      rw [if_pos (show ('-' :: natToHex z.natAbs).head? = some '-' from rfl)]
      rw [if_neg (show ¬(('-' :: natToHex z.natAbs).tail.head? = some '-') by
        show ¬((natToHex z.natAbs).head? = some '-')
        obtain ⟨d, tl, hdt, _⟩ := natToHex_head z.natAbs hm
        rw [hdt]
        intro hc
        injection hc with hc
        exact isLowerHexB_ne_dash (natToHex_all z.natAbs d (by rw [hdt]; simp)) hc)]
      change (if toHexCore ('-' :: natToHex z.natAbs).tail = ['0', 'x', '0', '0']
        then some (toHexCore ('-' :: natToHex z.natAbs).tail)
        else some ('-' :: toHexCore ('-' :: natToHex z.natAbs).tail)) = _
      rw [show ('-' :: natToHex z.natAbs).tail = natToHex z.natAbs from rfl, hT,
        if_neg (hTz hm)]
    · unfold canonicalHex
      rw [if_pos (show ('-' :: '0' :: 'x' :: T).head? = some '-' from rfl)]
      simp only [List.tail_cons]
      rw [hTc]
      simp only [Bool.true_and, Bool.not_eq_true', beq_eq_false_iff_ne, ne_eq]
      exact hTz hm
    · unfold bnParseHex
      rw [if_pos (show ('-' :: '0' :: 'x' :: T).head? = some '-' from rfl)]
      show (parseHexNat T).map _ = some z
      rw [hTp]
      simp only [Option.map_some']
      congr 1
      omega
  · have hstr : intToHexStr z = natToHex z.toNat := by
      unfold intToHexStr
      rw [if_neg hz]
    obtain ⟨T, hT, hTp, hTc, hTz⟩ := toHexCore_natToHex z.toNat
    refine ⟨'0' :: 'x' :: T, ?_, ?_, ?_⟩
    · rw [hstr]
      unfold toHex
      rw [if_neg (show ¬((natToHex z.toNat).head? = some '-') by
        obtain hne := natToHex_ne_nil z.toNat
        cases hh : natToHex z.toNat with
        | nil => exact absurd hh hne
        | cons d tl =>
          intro hc
          injection hc with hc
          exact isLowerHexB_ne_dash (natToHex_all z.toNat d (by rw [hh]; simp)) hc)]
      rw [hT]
    · rw [canonicalHex_pos_head (by simp), hTc]
    · unfold bnParseHex
      rw [if_neg (by simp)]
      show (parseHexNat T).map _ = some z
      rw [hTp]
      simp only [Option.map_some']
      congr 1
      omega

/-! ## Facts about the regex tests -/

theorem toHexCore_lower_prefixed {ds : List Char} (hne : ds ≠ [])
    (hall : ∀ c ∈ ds, isLowerHexB c = true) :
    canonicalPos (toHexCore ('0' :: 'x' :: ds)) = true := by
  rw [toHexCore_prefixed ds hne]
  apply canonicalPos_of_trim
  · split_ifs with h
    · simp
    · exact hne
  · split_ifs with h
    · simp only [List.length_cons]
      omega
    · omega
  · split_ifs with h
    · intro c hc
      rcases List.mem_cons.mp hc with rfl | hc
      · decide
      · exact hall c hc
    · exact hall

theorem head_dash_shape {s : List Char} (h : s.head? = some '-') :
    ∃ s', s = '-' :: s' := by
  cases s with
  | nil => simp at h
  | cons a t =>
    injection h with h
    exact ⟨t, by rw [h]⟩

theorem toHex_anchored {s : List Char} (h : anchoredLowerHex s = true) :
    ∃ t, toHex s = some t ∧ canonicalHex t = true := by
  unfold anchoredLowerHex at h
  by_cases hneg : s.head? = some '-'
  · rw [if_pos hneg] at h
    obtain ⟨s', rfl⟩ := head_dash_shape hneg
    simp only [List.tail_cons] at h
    rw [anchoredLowerHexPos_iff] at h
    obtain ⟨ds, rfl, hne, hall⟩ := h
    unfold toHex
    rw [if_pos (show ('-' :: '0' :: 'x' :: ds).head? = some '-' from rfl)]
    rw [if_neg (show ¬(('-' :: '0' :: 'x' :: ds).tail.head? = some '-') by simp)]
    by_cases hz : toHexCore ('0' :: 'x' :: ds) = ['0', 'x', '0', '0']
    · refine ⟨['0', 'x', '0', '0'], ?_, by decide⟩
      change (if toHexCore ('-' :: '0' :: 'x' :: ds).tail = ['0', 'x', '0', '0']
        then some (toHexCore ('-' :: '0' :: 'x' :: ds).tail)
        else some ('-' :: toHexCore ('-' :: '0' :: 'x' :: ds).tail)) = _
      rw [show ('-' :: '0' :: 'x' :: ds).tail = '0' :: 'x' :: ds from rfl, if_pos hz, hz]
    · refine ⟨'-' :: toHexCore ('0' :: 'x' :: ds), ?_, ?_⟩
      · change (if toHexCore ('-' :: '0' :: 'x' :: ds).tail = ['0', 'x', '0', '0']
          then some (toHexCore ('-' :: '0' :: 'x' :: ds).tail)
          else some ('-' :: toHexCore ('-' :: '0' :: 'x' :: ds).tail)) = _
        rw [show ('-' :: '0' :: 'x' :: ds).tail = '0' :: 'x' :: ds from rfl, if_neg hz]
      unfold canonicalHex
      rw [if_pos (show ('-' :: toHexCore ('0' :: 'x' :: ds)).head? = some '-' from rfl)]
      simp only [List.tail_cons]
      rw [toHexCore_lower_prefixed hne hall]
      simp only [Bool.true_and, Bool.not_eq_true', beq_eq_false_iff_ne, ne_eq]
      exact hz
  · rw [if_neg hneg] at h
    rw [anchoredLowerHexPos_iff] at h
    obtain ⟨ds, rfl, hne, hall⟩ := h
    unfold toHex
    rw [if_neg (show ¬(('0' :: 'x' :: ds).head? = some '-') by simp)]
    refine ⟨_, rfl, ?_⟩
    obtain ⟨t, ht, _⟩ := toHexCore_shape ('0' :: 'x' :: ds)
    rw [canonicalHex_pos_head (by rw [ht]; simp)]
    exact toHexCore_lower_prefixed hne hall

theorem hasHexMatch_cons (c : Char) (rest : List Char) :
    hasHexMatch (c :: rest) =
      ((c == '0' &&
        (match rest with
         | x :: d :: _ => (x == 'x' || x == 'X') && isHexCIB d
         | _ => false)) || hasHexMatch rest) := rfl

theorem hasHexMatch_0x {ds : List Char} (hne : ds ≠ [])
    (hall : ∀ c ∈ ds, isHexCIB c = true) :
    hasHexMatch ('0' :: 'x' :: ds) = true := by
  cases ds with
  | nil => exact absurd rfl hne
  | cons d tl =>
    rw [hasHexMatch_cons]
    have hd : isHexCIB d = true := hall d (by simp)
    simp [hd]

theorem hasHexMatch_dash (s : List Char) :
    hasHexMatch ('-' :: s) = hasHexMatch s := by
  rw [hasHexMatch_cons]
  simp only [show ('-' == '0') = false from by decide, Bool.false_and, Bool.false_or]

theorem isLowerHexB_isHexCIB {c : Char} (h : isLowerHexB c = true) :
    isHexCIB c = true := by
  unfold isHexCIB
  rw [h]
  rfl

theorem hasHexMatch_no_x {s : List Char} (h : ∀ c ∈ s, c ≠ 'x' ∧ c ≠ 'X') :
    hasHexMatch s = false := by
  induction s with
  | nil => rfl
  | cons c rest ih =>
    rw [hasHexMatch_cons, ih (fun c' hc' => h c' (List.mem_cons_of_mem _ hc'))]
    simp only [Bool.or_false]
    cases rest with
    | nil => simp
    | cons x rest2 =>
      cases rest2 with
      | nil => simp
      | cons d rest3 =>
        have hx := h x (by simp)
        simp [beq_iff_eq, hx.1, hx.2]

/-! ## Decimal strings -/

theorem natToDec_all (n : Nat) : ∀ c ∈ natToDec n, isDigitB c = true := by
  intro c hc
  obtain ⟨v, _, hv10, hd⟩ := natToBase_digits (by norm_num) (by norm_num) n c hc
  rw [← hd]
  exact digitChar_digit hv10

theorem natToDec_ne_nil (n : Nat) : natToDec n ≠ [] :=
  natToBase_ne_nil (by norm_num) n

theorem isDigitB_ne_dash {c : Char} (h : isDigitB c = true) : c ≠ '-' := by
  intro hc
  subst hc
  exact absurd h (by decide)

theorem isDigitB_ne_x {c : Char} (h : isDigitB c = true) : c ≠ 'x' ∧ c ≠ 'X' := by
  constructor <;> intro hc <;> subst hc <;> exact absurd h (by decide)

theorem natToDec_head_ne_dash (n : Nat) : (natToDec n).head? ≠ some '-' := by
  cases hh : natToDec n with
  | nil => simp
  | cons d tl =>
    intro hc
    injection hc with hc
    exact isDigitB_ne_dash (natToDec_all n d (by rw [hh]; simp)) hc

theorem matchesDecimal_intToDecStr (z : Int) :
    matchesDecimal (intToDecStr z) = true := by
  unfold intToDecStr matchesDecimal
  by_cases hz : z < 0
  · rw [if_pos hz]
    rw [if_pos (show ('-' :: natToDec z.natAbs).head? = some '-' from rfl)]
    simp only [List.tail_cons, Bool.and_eq_true, Bool.not_eq_true',
      List.isEmpty_eq_false, List.all_eq_true]
    exact ⟨natToDec_ne_nil _, natToDec_all _⟩
  · rw [if_neg hz]
    rw [if_neg (natToDec_head_ne_dash z.toNat)]
    simp only [Bool.and_eq_true, Bool.not_eq_true', List.isEmpty_eq_false,
      List.all_eq_true]
    exact ⟨natToDec_ne_nil _, natToDec_all _⟩

theorem parseDecNat_natToDec (n : Nat) : parseDecNat (natToDec n) = some n :=
  parse_natToBase (by norm_num) (by norm_num) n

theorem parseDecimal_intToDecStr (z : Int) : parseDecimal (intToDecStr z) = some z := by
  unfold intToDecStr parseDecimal
  by_cases hz : z < 0
  · rw [if_pos hz]
    rw [if_pos (show ('-' :: natToDec z.natAbs).head? = some '-' from rfl)]
    simp only [List.tail_cons]
    rw [parseDecNat_natToDec]
    simp only [Option.map_some']
    congr 1
    omega
  · rw [if_neg hz]
    rw [if_neg (natToDec_head_ne_dash z.toNat)]
    rw [parseDecNat_natToDec]
    simp only [Option.map_some']
    congr 1
    omega

theorem intToDecStr_no_x (z : Int) :
    ∀ c ∈ intToDecStr z, c ≠ 'x' ∧ c ≠ 'X' := by
  intro c hc
  unfold intToDecStr at hc
  split_ifs at hc with hz
  · rcases List.mem_cons.mp hc with rfl | hc
    · exact ⟨by decide, by decide⟩
    · exact isDigitB_ne_x (natToDec_all _ c hc)
  · exact isDigitB_ne_x (natToDec_all _ c hc)

theorem hasHexMatch_intToDecStr (z : Int) : hasHexMatch (intToDecStr z) = false :=
  hasHexMatch_no_x (intToDecStr_no_x z)

/-- Every string accepted by the decimal regex has a `parseDecimal` value
(the engine's base-10 parse is total on matched strings). -/
theorem matchesDecimal_parse {s : List Char} (h : matchesDecimal s = true) :
    ∃ z, parseDecimal s = some z := by
  have digits_parse : ∀ ds : List Char, (∀ c ∈ ds, isDigitB c = true) →
      ∀ acc, ∃ n, parseBaseAux 10 acc ds = some n := by
    intro ds
    induction ds with
    | nil => intro _ acc; exact ⟨acc, rfl⟩
    | cons c cs ih =>
      intro hall acc
      obtain ⟨v, hv, hv10, _⟩ := digit_exists_val (hall c (by simp))
      rw [parseBaseAux_cons, hv]
      simp only
      rw [if_pos hv10]
      exact ih (fun c' hc' => hall c' (by simp [hc'])) _
  unfold matchesDecimal at h
  unfold parseDecimal
  split_ifs at h with hneg
  · rw [if_pos hneg]
    simp only [Bool.and_eq_true, Bool.not_eq_true', List.isEmpty_eq_false,
      List.all_eq_true] at h
    obtain ⟨n, hn⟩ := digits_parse s.tail h.2 0
    exact ⟨-(n : Int), by rw [show parseDecNat s.tail = parseBaseAux 10 0 s.tail from rfl, hn]; rfl⟩
  · rw [if_neg hneg]
    simp only [Bool.and_eq_true, Bool.not_eq_true', List.isEmpty_eq_false,
      List.all_eq_true] at h
    obtain ⟨n, hn⟩ := digits_parse s h.2 0
    exact ⟨(n : Int), by rw [show parseDecNat s = parseBaseAux 10 0 s from rfl, hn]; rfl⟩

theorem matchesDecimal_chars {s : List Char} (h : matchesDecimal s = true) :
    ∀ c ∈ s, c = '-' ∨ isDigitB c = true := by
  unfold matchesDecimal at h
  split_ifs at h with hneg
  · obtain ⟨s', rfl⟩ := head_dash_shape hneg
    simp only [List.tail_cons, Bool.and_eq_true, Bool.not_eq_true',
      List.isEmpty_eq_false, List.all_eq_true] at h
    intro c hc
    rcases List.mem_cons.mp hc with rfl | hc
    · exact Or.inl rfl
    · exact Or.inr (h.2 c hc)
  · simp only [Bool.and_eq_true, Bool.not_eq_true', List.isEmpty_eq_false,
      List.all_eq_true] at h
    exact fun c hc => Or.inr (h.2 c hc)

theorem matchesDecimal_no_hexmatch {s : List Char} (h : matchesDecimal s = true) :
    hasHexMatch s = false := by
  apply hasHexMatch_no_x
  intro c hc
  rcases matchesDecimal_chars h c hc with rfl | hd
  · exact ⟨by decide, by decide⟩
  · exact isDigitB_ne_x hd

/-! ## Canonical strings under `toHex` and the hex regex -/

theorem toHex_canonical_fix {s : List Char} (h : canonicalHex s = true) :
    toHex s = some s := by
  unfold canonicalHex at h
  by_cases hneg : s.head? = some '-'
  · rw [if_pos hneg] at h
    obtain ⟨s', rfl⟩ := head_dash_shape hneg
    simp only [List.tail_cons, Bool.and_eq_true, Bool.not_eq_true',
      beq_eq_false_iff_ne, ne_eq] at h
    obtain ⟨hpos, hnz⟩ := h
    unfold toHex
    rw [if_pos (show ('-' :: s').head? = some '-' from rfl)]
    rw [if_neg (show ¬(('-' :: s').tail.head? = some '-') by
      simp only [List.tail_cons]
      rw [canonicalPos_head hpos]
      simp)]
    change (if toHexCore ('-' :: s').tail = ['0', 'x', '0', '0']
      then some (toHexCore ('-' :: s').tail)
      else some ('-' :: toHexCore ('-' :: s').tail)) = _
    rw [show ('-' :: s').tail = s' from rfl, toHexCore_canonical_fix hpos, if_neg hnz]
  · rw [if_neg hneg] at h
    unfold toHex
    rw [if_neg hneg, toHexCore_canonical_fix h]

theorem canonicalPos_hasHexMatch {s : List Char} (h : canonicalPos s = true) :
    hasHexMatch s = true := by
  rw [canonicalPos_iff] at h
  obtain ⟨ds, rfl, hne, hall, _, _⟩ := h
  exact hasHexMatch_0x hne (fun c hc => isLowerHexB_isHexCIB (hall c hc))

theorem canonicalHex_hasHexMatch {s : List Char} (h : canonicalHex s = true) :
    hasHexMatch s = true := by
  unfold canonicalHex at h
  by_cases hneg : s.head? = some '-'
  · rw [if_pos hneg] at h
    obtain ⟨s', rfl⟩ := head_dash_shape hneg
    simp only [List.tail_cons, Bool.and_eq_true] at h
    rw [hasHexMatch_dash]
    exact canonicalPos_hasHexMatch h.1
  · rw [if_neg hneg] at h
    exact canonicalPos_hasHexMatch h

theorem anchoredLowerHex_hasHexMatch {s : List Char} (h : anchoredLowerHex s = true) :
    hasHexMatch s = true := by
  unfold anchoredLowerHex at h
  by_cases hneg : s.head? = some '-'
  · rw [if_pos hneg] at h
    obtain ⟨s', rfl⟩ := head_dash_shape hneg
    simp only [List.tail_cons] at h
    rw [anchoredLowerHexPos_iff] at h
    obtain ⟨ds, rfl, hne, hall⟩ := h
    rw [hasHexMatch_dash]
    exact hasHexMatch_0x hne (fun c hc => isLowerHexB_isHexCIB (hall c hc))
  · rw [if_neg hneg] at h
    rw [anchoredLowerHexPos_iff] at h
    obtain ⟨ds, rfl, hne, hall⟩ := h
    exact hasHexMatch_0x hne (fun c hc => isLowerHexB_isHexCIB (hall c hc))

/-! ## The string branch of the dispatcher -/

theorem fromStr_hex {s t : List Char} (hm : hasHexMatch s = true)
    (ht : toHex s = some t) : fromStr s = .ok ⟨t⟩ := by
  unfold fromStr
  rw [if_pos hm, ht]

theorem fromStr_hex_err {s : List Char} (hm : hasHexMatch s = true)
    (ht : toHex s = none) :
    fromStr s = .error (.invalidArgument "invalid hex") := by
  unfold fromStr
  rw [if_pos hm, ht]

theorem fromStr_invalid {s : List Char} (h1 : hasHexMatch s = false)
    (h2 : matchesDecimal s = false) :
    fromStr s = .error (.invalidArgument "invalid BigNumber string") := by
  unfold fromStr
  rw [if_neg (by simp [h1]), if_neg (by simp [h2])]

theorem fromStr_decimal {s : List Char} (hd : matchesDecimal s = true) :
    ∃ z t, parseDecimal s = some z ∧ toHex (intToHexStr z) = some t ∧
      fromStr s = .ok ⟨t⟩ ∧ canonicalHex t = true ∧ bnParseHex t = some z := by
  have hnm := matchesDecimal_no_hexmatch hd
  obtain ⟨z, hz⟩ := matchesDecimal_parse hd
  obtain ⟨t, ht, htc, htp⟩ := toHex_render z
  refine ⟨z, t, hz, ht, ?_, htc, htp⟩
  unfold fromStr
  rw [if_neg (by simp [hnm]), if_pos hd, hz]
  change (match toHex (intToHexStr z) with
    | some u => Except.ok ({ _hex := u } : BigNumber)
    | none => Except.error (JsError.invalidArgument "invalid BigNumber string")) = _
  rw [ht]

theorem fromStr_intToDecStr (z : Int) :
    ∃ t, fromStr (intToDecStr z) = .ok ⟨t⟩ ∧ canonicalHex t = true ∧
      bnParseHex t = some z ∧ toHex (intToHexStr z) = some t := by
  obtain ⟨z', t, hz', ht, hfs, htc, htp⟩ := fromStr_decimal (matchesDecimal_intToDecStr z)
  rw [parseDecimal_intToDecStr z] at hz'
  injection hz' with hz'
  subst hz'
  exact ⟨t, hfs, htc, htp, ht⟩

theorem fromStr_ok {s : List Char} {b : BigNumber} (h : fromStr s = .ok b) :
    (hasHexMatch s = true ∧ toHex s = some b._hex) ∨
      (hasHexMatch s = false ∧ matchesDecimal s = true ∧
        ∃ z, parseDecimal s = some z ∧ toHex (intToHexStr z) = some b._hex) := by
  unfold fromStr at h
  by_cases hm : hasHexMatch s
  · rw [if_pos hm] at h
    cases ht : toHex s with
    | none => rw [ht] at h; exact absurd h (by simp)
    | some t =>
      rw [ht] at h
      injection h with h
      subst h
      exact Or.inl ⟨hm, rfl⟩
  · rw [if_neg hm] at h
    by_cases hd : matchesDecimal s
    · rw [if_pos hd] at h
      cases hz : parseDecimal s with
      | none => rw [hz] at h; exact absurd h (by simp)
      | some z =>
        rw [hz] at h
        change (match toHex (intToHexStr z) with
          | some u => Except.ok ({ _hex := u } : BigNumber)
          | none => Except.error (JsError.invalidArgument "invalid BigNumber string")) =
            Except.ok b at h
        cases ht : toHex (intToHexStr z) with
        | none => rw [ht] at h; exact absurd h (by simp)
        | some t =>
          rw [ht] at h
          injection h with h
          subst h
          exact Or.inr ⟨by simpa using hm, hd, z, rfl, ht⟩
    · rw [if_neg hd] at h
      exact absurd h (by simp)

theorem fromStr_ok_not_neg_zero {s : List Char} {b : BigNumber}
    (h : fromStr s = .ok b) : b._hex ≠ ['-', '0', 'x', '0', '0'] := by
  rcases fromStr_ok h with ⟨_, ht⟩ | ⟨_, _, z, _, ht⟩
  · exact toHex_ne_neg_zero ht
  · exact toHex_ne_neg_zero ht

theorem fromStr_ok_shapes {s : List Char} {b : BigNumber} (h : fromStr s = .ok b) :
    hasHexMatch s = true ∨ matchesDecimal s = true := by
  rcases fromStr_ok h with ⟨hm, _⟩ | ⟨_, hd, _⟩
  · exact Or.inl hm
  · exact Or.inr hd

/-! ## Dispatcher equations -/

theorem from_str (s : List Char) : BigNumber.«from» (.str s) = fromStr s := rfl

theorem from_bn (b : BigNumber) : BigNumber.«from» (.bn b) = .ok b := rfl

theorem from_bigint (z : Int) :
    BigNumber.«from» (.bigint z) = fromStr (intToDecStr z) := rfl

theorem from_bytes (bs : List Nat) :
    BigNumber.«from» (.bytes bs) = fromStr (hexlify bs) := rfl

theorem from_objToHex (s : List Char) :
    BigNumber.«from» (.objToHex s) = fromStr s := rfl

theorem from_other :
    BigNumber.«from» .other = .error (.invalidArgument "invalid BigNumber value") := rfl

theorem from_num (n : Int) :
    BigNumber.«from» (.num n) =
      if MAX_SAFE ≤ n ∨ n ≤ -MAX_SAFE then
        .error (.numericFault "overflow" "BigNumber.from")
      else fromStr (intToDecStr n) := rfl

theorem from_objHex (h : List Char) :
    BigNumber.«from» (.objHex h) =
      if !h.isEmpty && isHexStringB h then fromStr h
      else .error (.invalidArgument "invalid BigNumber value") := rfl

/-! ## Byte sequences -/

theorem hexlify_pairs_all (bs : List Nat) :
    ∀ c ∈ (bs.map (fun b => [Nat.digitChar (b / 16 % 16), Nat.digitChar (b % 16)])).flatten,
      isLowerHexB c = true := by
  intro c hc
  rw [List.mem_flatten] at hc
  obtain ⟨l, hl, hcl⟩ := hc
  rw [List.mem_map] at hl
  obtain ⟨b, _, rfl⟩ := hl
  rcases List.mem_cons.mp hcl with rfl | hcl
  · exact digitChar_lowerHex (Nat.mod_lt _ (by omega))
  · rcases List.mem_cons.mp hcl with rfl | hcl
    · exact digitChar_lowerHex (Nat.mod_lt _ (by omega))
    · simp at hcl

theorem from_bytes_ok {bs : List Nat} {b : BigNumber}
    (h : BigNumber.«from» (.bytes bs) = .ok b) : canonicalHex b._hex = true := by
  cases bs with
  | nil =>
    rw [from_bytes] at h
    rw [fromStr_invalid (by decide) (by decide)] at h
    exact absurd h (by simp)
  | cons p ps =>
    rw [from_bytes] at h
    have hpne : (((p :: ps).map
        (fun b => [Nat.digitChar (b / 16 % 16), Nat.digitChar (b % 16)])).flatten) ≠ [] := by
      simp
    have hall := hexlify_pairs_all (p :: ps)
    have hm : hasHexMatch (hexlify (p :: ps)) = true :=
      hasHexMatch_0x hpne (fun c hc => isLowerHexB_isHexCIB (hall c hc))
    obtain ⟨t, htc, _⟩ := toHexCore_shape (hexlify (p :: ps))
    have hth : toHex (hexlify (p :: ps)) = some (toHexCore (hexlify (p :: ps))) := by
      unfold toHex
      rw [if_neg (show ¬((hexlify (p :: ps)).head? = some '-') from by
        show ¬(('0' :: 'x' ::
          ((p :: ps).map
            (fun b => [Nat.digitChar (b / 16 % 16), Nat.digitChar (b % 16)])).flatten).head? =
              some '-')
        simp)]
    rw [fromStr_hex hm hth] at h
    injection h with h
    subst h
    show canonicalHex (toHexCore (hexlify (p :: ps))) = true
    rw [canonicalHex_pos_head (by rw [htc]; simp)]
    exact toHexCore_lower_prefixed hpne (hexlify_pairs_all (p :: ps))

/-! ## Canonical strings decode and re-encode to themselves -/

theorem canonicalPos_parse_render {s : List Char} (h : canonicalPos s = true) :
    ∃ n : Nat, parseHexNat (s.drop 2) = some n ∧
      toHexCore (natToHex n) = s ∧ (n = 0 ↔ s = ['0', 'x', '0', '0']) := by
  rw [canonicalPos_iff] at h
  obtain ⟨ds, rfl, hne, hall, heven, hmin⟩ := h
  have hdrop : ('0' :: 'x' :: ds).drop 2 = ds := rfl
  rw [hdrop]
  by_cases h00 : ds = ['0', '0']
  · subst h00
    exact ⟨0, by decide, by decide, by constructor <;> intro <;> rfl⟩
  · cases ds with
    | nil => exact absurd rfl hne
    | cons d tl =>
      by_cases hd0 : d = '0'
      · subst hd0
        cases tl with
        | nil => simp at heven
        | cons e tl2 =>
          have he0 : e ≠ '0' := by
            intro he
            subst he
            rcases hmin with hlen | htake
            · simp only [List.length_cons] at hlen
              have : tl2 = [] := by
                cases tl2 with
                | nil => rfl
                | cons _ _ => simp at hlen
              exact h00 (by rw [this])
            · exact htake rfl
          have hrange : ∃ m, natToHex m = e :: tl2 := by
            apply natToBase_range (by norm_num) (by norm_num) _ (by simp)
            · intro c hc
              obtain ⟨v, hv, hv16, hd⟩ :=
                lowerHex_exists_val (hall c (List.mem_cons_of_mem _ hc))
              exact ⟨v, hv, hv16, hd⟩
            · intro t ht
              exact he0 (by injection ht)
          obtain ⟨m, hm⟩ := hrange
          have hm0 : m ≠ 0 := by
            intro h0
            subst h0
            rw [show natToHex 0 = ['0'] from by decide] at hm
            injection hm with hm _
            exact he0 hm.symm
          have hparse : parseHexNat ('0' :: e :: tl2) = some m := by
            rw [parseHexNat_cons_zero, ← hm, parseHexNat_natToHex]
          refine ⟨m, hparse, ?_, ?_⟩
          · rw [hm]
            have hne2 : (e :: tl2 : List Char) ≠ [] := by simp
            have hall2 : ∀ c ∈ (e :: tl2 : List Char), isLowerHexB c = true :=
              fun c hc => hall c (List.mem_cons_of_mem _ hc)
            rw [toHexCore_unprefixed _ hne2 (lower_take_ne_0x hall2)]
            have hodd : (e :: tl2).length % 2 = 1 := by
              simp only [List.length_cons] at heven ⊢
              omega
            rw [if_pos hodd, trimPairs_noop]
            intro c rest hh
            injection hh with _ hh
            injection hh with hh _
            exact he0 hh
          · constructor
            · intro h0
              exact absurd h0 hm0
            · intro hh
              injection hh with _ hh
              injection hh with _ hh
              injection hh with _ hh
              injection hh with hh _
              exact absurd hh he0
      · have hrange : ∃ m, natToHex m = d :: tl := by
          apply natToBase_range (by norm_num) (by norm_num) _ (by simp)
          · intro c hc
            obtain ⟨v, hv, hv16, hdc⟩ := lowerHex_exists_val (hall c hc)
            exact ⟨v, hv, hv16, hdc⟩
          · intro t ht
            exact hd0 (by injection ht)
        obtain ⟨m, hm⟩ := hrange
        have hm0 : m ≠ 0 := by
          intro h0
          subst h0
          rw [show natToHex 0 = ['0'] from by decide] at hm
          injection hm with hm _
          exact hd0 hm.symm
        have hparse : parseHexNat (d :: tl) = some m := by
          rw [← hm, parseHexNat_natToHex]
        refine ⟨m, hparse, ?_, ?_⟩
        · rw [hm]
          rw [toHexCore_unprefixed _ (by simp) (lower_take_ne_0x hall)]
          rw [if_neg (by omega), trimPairs_noop]
          intro c rest hh
          injection hh with hh _
          exact hd0 hh
        · constructor
          · intro h0
            exact absurd h0 hm0
          · intro hh
            injection hh with _ hh
            injection hh with _ hh
            injection hh with hh _
            exact absurd hh hd0

theorem canonicalHex_parse_render {s : List Char} (h : canonicalHex s = true) :
    ∃ z : Int, bnParseHex s = some z ∧ toHex (intToHexStr z) = some s := by
  unfold canonicalHex at h
  by_cases hneg : s.head? = some '-'
  · rw [if_pos hneg] at h
    obtain ⟨s', rfl⟩ := head_dash_shape hneg
    simp only [List.tail_cons, Bool.and_eq_true, Bool.not_eq_true',
      beq_eq_false_iff_ne, ne_eq] at h
    obtain ⟨hpos, hnz⟩ := h
    obtain ⟨n, hp, hrender, hiff⟩ := canonicalPos_parse_render hpos
    have hn0 : n ≠ 0 := fun h0 => hnz (hiff.mp h0)
    refine ⟨-(n : Int), ?_, ?_⟩
    · unfold bnParseHex
      rw [if_pos (show ('-' :: s').head? = some '-' from rfl)]
      rw [show ('-' :: s').drop 3 = s'.drop 2 from rfl, hp]
      rfl
    · have hzlt : -(n : Int) < 0 := by omega
      have habs : (-(n : Int)).natAbs = n := by omega
      unfold intToHexStr
      rw [if_pos hzlt, habs]
      unfold toHex
      rw [if_pos (show ('-' :: natToHex n).head? = some '-' from rfl)]
      rw [if_neg (show ¬(('-' :: natToHex n).tail.head? = some '-') by
        show ¬((natToHex n).head? = some '-')
        cases hh : natToHex n with
        | nil => simp
        | cons d tl =>
          intro hc
          injection hc with hc
          exact isLowerHexB_ne_dash (natToHex_all n d (by rw [hh]; simp)) hc)]
      change (if toHexCore ('-' :: natToHex n).tail = ['0', 'x', '0', '0']
        then some (toHexCore ('-' :: natToHex n).tail)
        else some ('-' :: toHexCore ('-' :: natToHex n).tail)) = _
      rw [show ('-' :: natToHex n).tail = natToHex n from rfl, hrender, if_neg hnz]
  · rw [if_neg hneg] at h
    obtain ⟨n, hp, hrender, _⟩ := canonicalPos_parse_render h
    refine ⟨(n : Int), ?_, ?_⟩
    · unfold bnParseHex
      rw [if_neg hneg, hp]
      rfl
    · have hzge : ¬((n : Int) < 0) := by omega
      have htn : ((n : Int)).toNat = n := rfl
      unfold intToHexStr
      rw [if_neg hzge, htn]
      unfold toHex
      rw [if_neg (show ¬((natToHex n).head? = some '-') by
        cases hh : natToHex n with
        | nil => simp
        | cons d tl =>
          intro hc
          injection hc with hc
          exact isLowerHexB_ne_dash (natToHex_all n d (by rw [hh]; simp)) hc)]
      rw [hrender]

theorem canonical_inj {s t : List Char} {z : Int} (hs : canonicalHex s = true)
    (ht : canonicalHex t = true) (hps : bnParseHex s = some z)
    (hpt : bnParseHex t = some z) : s = t := by
  obtain ⟨z1, hp1, hr1⟩ := canonicalHex_parse_render hs
  obtain ⟨z2, hp2, hr2⟩ := canonicalHex_parse_render ht
  rw [hps] at hp1
  rw [hpt] at hp2
  injection hp1 with hp1
  injection hp2 with hp2
  subst hp1
  subst hp2
  rw [hr1] at hr2
  exact Option.some.inj hr2

/-! ## Decoding and the operation wrappers -/

theorem bindE_ok {α β : Type} {m : Except JsError α} {f : α → Except JsError β}
    {b : β} (h : (m >>= f) = .ok b) : ∃ a, m = .ok a ∧ f a = .ok b := by
  cases m with
  | ok a => exact ⟨a, rfl, h⟩
  | error e =>
    exact absurd h (by simp [Bind.bind, Except.bind])

theorem bindE_ok_eq {α β : Type} (a : α) (f : α → Except JsError β) :
    ((.ok a : Except JsError α) >>= f) = f a := rfl

theorem toBN_bn (a : BigNumber) : toBN (.bn a) =
    (match bnParseHex a._hex with
     | some z => .ok z
     | none => .error .engineError) := rfl

theorem toBN_bn_of_parse {a : BigNumber} {z : Int} (h : bnParseHex a._hex = some z) :
    toBN (.bn a) = .ok z := by
  rw [toBN_bn, h]

theorem toBigNumber_ok (z : Int) :
    ∃ b, toBigNumber z = .ok b ∧ canonicalHex b._hex = true ∧
      bnParseHex b._hex = some z := by
  obtain ⟨h, hth, htc, htp⟩ := toHex_render z
  refine ⟨⟨h⟩, ?_, htc, htp⟩
  unfold toBigNumber
  rw [hth]
  change BigNumber.«from» (.str h) = _
  rw [from_str, fromStr_hex (canonicalHex_hasHexMatch htc) (toHex_canonical_fix htc)]

theorem toBigNumber_ok_canonical {z : Int} {b : BigNumber}
    (h : toBigNumber z = .ok b) : canonicalHex b._hex = true := by
  obtain ⟨b', hb', hc, _⟩ := toBigNumber_ok z
  rw [hb'] at h
  injection h with h
  rw [← h]
  exact hc

theorem add_ok_canonical {a : BigNumber} {v : BValue} {b : BigNumber}
    (h : BigNumber.add a v = .ok b) : canonicalHex b._hex = true := by
  unfold BigNumber.add at h
  obtain ⟨x, hx, h⟩ := bindE_ok h
  obtain ⟨y, hy, h⟩ := bindE_ok h
  exact toBigNumber_ok_canonical h

theorem sub_ok_canonical {a : BigNumber} {v : BValue} {b : BigNumber}
    (h : BigNumber.sub a v = .ok b) : canonicalHex b._hex = true := by
  unfold BigNumber.sub at h
  obtain ⟨x, hx, h⟩ := bindE_ok h
  obtain ⟨y, hy, h⟩ := bindE_ok h
  exact toBigNumber_ok_canonical h

theorem mul_ok_canonical {a : BigNumber} {v : BValue} {b : BigNumber}
    (h : BigNumber.mul a v = .ok b) : canonicalHex b._hex = true := by
  unfold BigNumber.mul at h
  obtain ⟨x, hx, h⟩ := bindE_ok h
  obtain ⟨y, hy, h⟩ := bindE_ok h
  exact toBigNumber_ok_canonical h

theorem mod_ok_canonical {a : BigNumber} {v : BValue} {b : BigNumber}
    (h : BigNumber.mod a v = .ok b) : canonicalHex b._hex = true := by
  unfold BigNumber.mod at h
  obtain ⟨x, hx, h⟩ := bindE_ok h
  obtain ⟨y, hy, h⟩ := bindE_ok h
  exact toBigNumber_ok_canonical h

theorem pow_ok_canonical {a : BigNumber} {v : BValue} {b : BigNumber}
    (h : BigNumber.pow a v = .ok b) : canonicalHex b._hex = true := by
  unfold BigNumber.pow at h
  obtain ⟨x, hx, h⟩ := bindE_ok h
  obtain ⟨y, hy, h⟩ := bindE_ok h
  exact toBigNumber_ok_canonical h

theorem toTwos_ok_canonical {a : BigNumber} {w : Nat} {b : BigNumber}
    (h : BigNumber.toTwos a w = .ok b) : canonicalHex b._hex = true := by
  unfold BigNumber.toTwos at h
  obtain ⟨x, hx, h⟩ := bindE_ok h
  exact toBigNumber_ok_canonical h

theorem fromTwos_ok_canonical {a : BigNumber} {w : Nat} {b : BigNumber}
    (h : BigNumber.fromTwos a w = .ok b) : canonicalHex b._hex = true := by
  unfold BigNumber.fromTwos at h
  obtain ⟨x, hx, h⟩ := bindE_ok h
  exact toBigNumber_ok_canonical h

theorem maskn_ok_canonical {a : BigNumber} {w : Nat} {b : BigNumber}
    (h : BigNumber.maskn a w = .ok b) : canonicalHex b._hex = true := by
  unfold BigNumber.maskn at h
  obtain ⟨x, hx, h⟩ := bindE_ok h
  split_ifs at h with hx0
  all_goals first
  | exact Except.noConfusion h
  | exact toBigNumber_ok_canonical h

theorem div_ok_canonical {a : BigNumber} {v : BValue} {b : BigNumber}
    (h : BigNumber.div a v = .ok b) : canonicalHex b._hex = true := by
  unfold BigNumber.div at h
  obtain ⟨o, ho, h⟩ := bindE_ok h
  obtain ⟨z, hz, h⟩ := bindE_ok h
  split_ifs at h with hz0
  all_goals first
  | exact Except.noConfusion h
  | (obtain ⟨x, hx, h⟩ := bindE_ok h
     obtain ⟨y, hy, h⟩ := bindE_ok h
     exact toBigNumber_ok_canonical h)

theorem abs_ok_canonical {a b : BigNumber} (hc : canonicalHex a._hex = true)
    (h : BigNumber.abs a = .ok b) : canonicalHex b._hex = true := by
  unfold BigNumber.abs at h
  by_cases hneg : a._hex.head? = some '-'
  · rw [if_pos hneg] at h
    obtain ⟨s', hs'⟩ := head_dash_shape hneg
    rw [hs'] at hc
    unfold canonicalHex at hc
    rw [if_pos (show ('-' :: s').head? = some '-' from rfl)] at hc
    simp only [List.tail_cons, Bool.and_eq_true, Bool.not_eq_true',
      beq_eq_false_iff_ne, ne_eq] at hc
    obtain ⟨hpos, hnz⟩ := hc
    have hc' : canonicalHex s' = true := by
      rw [canonicalHex_pos_head (by rw [canonicalPos_head hpos]; simp)]
      exact hpos
    rw [hs'] at h
    simp only [List.tail_cons] at h
    rw [from_str,
      fromStr_hex (canonicalHex_hasHexMatch hc') (toHex_canonical_fix hc')] at h
    injection h with h
    rw [← h]
    exact hc'
  · rw [if_neg hneg] at h
    injection h with h
    rw [← h]
    exact hc

theorem isZero_eval {o : BigNumber} {z : Int} (hp : bnParseHex o._hex = some z) :
    BigNumber.isZero o = .ok (decide (z = 0)) := by
  unfold BigNumber.isZero
  rw [hp]

theorem toString_eval {a : BigNumber} {z : Int} (hp : bnParseHex a._hex = some z) :
    BigNumber.toString a = .ok (intToDecStr z) := by
  unfold BigNumber.toString
  rw [hp]

theorem eq_eval {a b : BigNumber} {x y : Int} (hx : bnParseHex a._hex = some x)
    (hy : bnParseHex b._hex = some y) :
    BigNumber.eq a (.bn b) = .ok (decide (x = y)) := by
  unfold BigNumber.eq
  rw [toBN_bn_of_parse hx, bindE_ok_eq, toBN_bn_of_parse hy, bindE_ok_eq]
  rfl

theorem lt_eval {a b : BigNumber} {x y : Int} (hx : bnParseHex a._hex = some x)
    (hy : bnParseHex b._hex = some y) :
    BigNumber.lt a (.bn b) = .ok (decide (x < y)) := by
  unfold BigNumber.lt
  rw [toBN_bn_of_parse hx, bindE_ok_eq, toBN_bn_of_parse hy, bindE_ok_eq]
  rfl

/-! ## Error taxonomy of the dispatcher -/

theorem bindE_err {α β : Type} (e : JsError) (f : α → Except JsError β) :
    ((.error e : Except JsError α) >>= f) = .error e := rfl

theorem fromStr_err {s : List Char} {e : JsError} (h : fromStr s = .error e) :
    ∃ m, e = .invalidArgument m := by
  unfold fromStr at h
  by_cases hm : hasHexMatch s
  · rw [if_pos hm] at h
    cases ht : toHex s with
    | some t =>
      rw [ht] at h
      exact Except.noConfusion h
    | none =>
      rw [ht] at h
      injection h with h
      exact ⟨_, h.symm⟩
  · rw [if_neg hm] at h
    by_cases hd : matchesDecimal s
    · rw [if_pos hd] at h
      cases hz : parseDecimal s with
      | none =>
        rw [hz] at h
        injection h with h
        exact ⟨_, h.symm⟩
      | some z =>
        rw [hz] at h
        change (match toHex (intToHexStr z) with
          | some u => Except.ok ({ _hex := u } : BigNumber)
          | none => Except.error (JsError.invalidArgument "invalid BigNumber string")) =
            Except.error e at h
        cases ht : toHex (intToHexStr z) with
        | some t =>
          rw [ht] at h
          exact Except.noConfusion h
        | none =>
          rw [ht] at h
          injection h with h
          exact ⟨_, h.symm⟩
    · rw [if_neg hd] at h
      injection h with h
      exact ⟨_, h.symm⟩

theorem from_error_kinds {v : BValue} {e : JsError}
    (h : BigNumber.«from» v = .error e) :
    (∃ m, e = .invalidArgument m) ∨ e = .numericFault "overflow" "BigNumber.from" := by
  cases v with
  | bn b => exact Except.noConfusion h
  | str s => exact Or.inl (fromStr_err h)
  | num n =>
    rw [from_num] at h
    split_ifs at h with ho
    · injection h with h
      exact Or.inr h.symm
    · exact Or.inl (fromStr_err h)
  | bigint z => exact Or.inl (fromStr_err h)
  | bytes bs => exact Or.inl (fromStr_err h)
  | objHex hx =>
    rw [from_objHex] at h
    split_ifs at h with ho
    · exact Or.inl (fromStr_err h)
    · injection h with h
      exact Or.inl ⟨_, h.symm⟩
  | objToHex s => exact Or.inl (fromStr_err h)
  | other =>
    injection h with h
    exact Or.inl ⟨_, h.symm⟩

theorem toBN_eval {v : BValue} {o : BigNumber} {z : Int}
    (ho : BigNumber.«from» v = .ok o) (hp : bnParseHex o._hex = some z) :
    toBN v = .ok z := by
  unfold toBN
  rw [ho]
  change (match bnParseHex o._hex with
    | some z => Except.ok z
    | none => Except.error JsError.engineError) = _
  rw [hp]

theorem toBN_bn_err {a : BigNumber} {e : JsError} (h : toBN (.bn a) = .error e) :
    e = .engineError := by
  cases hp : bnParseHex a._hex with
  | some z =>
    rw [toBN_bn_of_parse hp] at h
    exact Except.noConfusion h
  | none =>
    have heq : toBN (.bn a) = .error .engineError := by
      rw [toBN_bn, hp]
    rw [heq] at h
    injection h with h
    exact h.symm

/-! ## Canonicality of `from` on each accepted shape -/

theorem from_str_decimal_canonical {s : List Char} {b : BigNumber}
    (hd : matchesDecimal s = true) (h : BigNumber.«from» (.str s) = .ok b) :
    canonicalHex b._hex = true := by
  rw [from_str] at h
  obtain ⟨z, t, _, _, hfs, htc, _⟩ := fromStr_decimal hd
  rw [hfs] at h
  injection h with h
  rw [← h]
  exact htc

theorem from_str_anchored_canonical {s : List Char} {b : BigNumber}
    (ha : anchoredLowerHex s = true) (h : BigNumber.«from» (.str s) = .ok b) :
    canonicalHex b._hex = true := by
  rw [from_str] at h
  obtain ⟨t, ht, htc⟩ := toHex_anchored ha
  rw [fromStr_hex (anchoredLowerHex_hasHexMatch ha) ht] at h
  injection h with h
  rw [← h]
  exact htc

theorem from_num_ok_canonical {n : Int} {b : BigNumber}
    (h : BigNumber.«from» (.num n) = .ok b) : canonicalHex b._hex = true := by
  rw [from_num] at h
  split_ifs at h with ho
  all_goals first
  | exact Except.noConfusion h
  | (obtain ⟨t, hfs, htc, _, _⟩ := fromStr_intToDecStr n
     rw [hfs] at h
     injection h with h
     rw [← h]
     exact htc)

theorem from_bigint_ok_canonical {z : Int} {b : BigNumber}
    (h : BigNumber.«from» (.bigint z) = .ok b) : canonicalHex b._hex = true := by
  rw [from_bigint] at h
  obtain ⟨t, hfs, htc, _, _⟩ := fromStr_intToDecStr z
  rw [hfs] at h
  injection h with h
  rw [← h]
  exact htc

/-! ## Decimal round-trip support -/

theorem natToDec_strip {ds : List Char} (hne : ds ≠ [])
    (hall : ∀ c ∈ ds, isDigitB c = true) {n : Nat}
    (hp : parseDecNat ds = some n) : natToDec n = stripZeros ds := by
  apply natToBase_strip (by norm_num) (by norm_num) ds hne _ n hp
  intro c hc
  obtain ⟨v, hv, hv10, hd⟩ := digit_exists_val (hall c hc)
  exact ⟨v, hv, hv10, hd⟩

theorem natToDec_head (n : Nat) (hn : n ≠ 0) :
    ∃ c t, natToDec n = c :: t ∧ c ≠ '0' :=
  natToBase_head (by norm_num) (by norm_num) n hn

theorem toString_canonDec {s : List Char} (hd : matchesDecimal s = true) {z : Int}
    (hz : parseDecimal s = some z) : intToDecStr z = canonDec s := by
  unfold matchesDecimal at hd
  unfold parseDecimal at hz
  unfold canonDec
  by_cases hneg : s.head? = some '-'
  · rw [if_pos hneg] at hd hz ⊢
    obtain ⟨ds, rfl⟩ := head_dash_shape hneg
    simp only [List.tail_cons, Bool.and_eq_true, Bool.not_eq_true',
      List.isEmpty_eq_false, List.all_eq_true] at hd
    simp only [List.tail_cons] at hz ⊢
    cases hn : parseDecNat ds with
    | none => rw [hn] at hz; simp at hz
    | some n =>
      rw [hn] at hz
      simp only [Option.map_some'] at hz
      injection hz with hz
      have hstrip := natToDec_strip hd.1 hd.2 hn
      by_cases hn0 : n = 0
      · subst hn0
        have hz0 : z = 0 := by omega
        subst hz0
        rw [if_pos (by rw [← hstrip]; decide)]
        unfold intToDecStr
        rw [if_neg (by omega)]
        decide
      · rw [if_neg (by
          rw [← hstrip]
          intro hh
          obtain ⟨c, t, hct, hc0⟩ := natToDec_head n hn0
          rw [hct] at hh
          injection hh with h1 h2
          exact hc0 h1)]
        unfold intToDecStr
        rw [if_pos (by omega), ← hstrip]
        congr 2
        omega
  · rw [if_neg hneg] at hd hz ⊢
    simp only [Bool.and_eq_true, Bool.not_eq_true', List.isEmpty_eq_false,
      List.all_eq_true] at hd
    cases hn : parseDecNat s with
    | none => rw [hn] at hz; simp at hz
    | some n =>
      rw [hn] at hz
      simp only [Option.map_some'] at hz
      injection hz with hz
      have hstrip := natToDec_strip hd.1 hd.2 hn
      unfold intToDecStr
      rw [if_neg (by omega), ← hstrip]
      congr 1
      omega

/-! ## No accepted input stores a negative zero -/

theorem from_ok_not_neg_zero {v : BValue} {b : BigNumber}
    (hnb : ∀ b₀, v ≠ .bn b₀) (h : BigNumber.«from» v = .ok b) :
    b._hex ≠ ['-', '0', 'x', '0', '0'] := by
  cases v with
  | bn b₀ => exact absurd rfl (hnb b₀)
  | str s => exact fromStr_ok_not_neg_zero h
  | num n =>
    rw [from_num] at h
    split_ifs at h with ho
    all_goals first
    | exact Except.noConfusion h
    | exact fromStr_ok_not_neg_zero h
  | bigint z => exact fromStr_ok_not_neg_zero h
  | bytes bs => exact fromStr_ok_not_neg_zero h
  | objHex hx =>
    rw [from_objHex] at h
    split_ifs at h with ho
    all_goals first
    | exact Except.noConfusion h
    | exact fromStr_ok_not_neg_zero h
  | objToHex s => exact fromStr_ok_not_neg_zero h
  | other => exact Except.noConfusion h

/-! ## Division-by-zero fault characterization -/

theorem div_fault_iff (a : BigNumber) (v : BValue) :
    BigNumber.div a v = .error (.numericFault "division by zero" "div") ↔
      ∃ o, BigNumber.«from» v = .ok o ∧ bnParseHex o._hex = some 0 := by
  constructor
  · intro h
    unfold BigNumber.div at h
    cases hfo : BigNumber.«from» v with
    | error e =>
      rw [hfo, bindE_err] at h
      injection h with h
      rcases from_error_kinds hfo with ⟨m, rfl⟩ | rfl
      · exact JsError.noConfusion h
      · injection h with h1 h2
        exact absurd h1 (by decide)
    | ok o =>
      rw [hfo, bindE_ok_eq] at h
      cases hpz : bnParseHex o._hex with
      | none =>
        rw [show BigNumber.isZero o = .error .engineError from by
          unfold BigNumber.isZero; rw [hpz], bindE_err] at h
        injection h with h
        exact JsError.noConfusion h
      | some z =>
        rw [isZero_eval hpz, bindE_ok_eq] at h
        by_cases hz0 : z = 0
        · exact ⟨o, rfl, by rw [hpz, hz0]⟩
        · rw [if_neg (by simp [hz0])] at h
          cases htx : toBN (.bn a) with
          | error e2 =>
            rw [htx, bindE_err] at h
            injection h with h
            rw [toBN_bn_err htx] at h
            exact JsError.noConfusion h
          | ok x =>
            rw [htx, bindE_ok_eq, toBN_eval hfo hpz, bindE_ok_eq] at h
            obtain ⟨b', hb', _, _⟩ := toBigNumber_ok (Int.tdiv x z)
            rw [hb'] at h
            exact Except.noConfusion h
  · rintro ⟨o, ho, hp0⟩
    unfold BigNumber.div
    rw [ho, bindE_ok_eq, isZero_eval hp0, bindE_ok_eq, if_pos (by simp)]

/-! ## The `_hex`-field shape -/

theorem isHexStringB_not_decimal {h : List Char} (hh : isHexStringB h = true) :
    matchesDecimal h = false := by
  unfold isHexStringB at hh
  simp only [Bool.and_eq_true, beq_iff_eq] at hh
  obtain ⟨rest, hrest⟩ := take_two_eq hh.1
  cases hmd : matchesDecimal h with
  | false => rfl
  | true =>
    rcases matchesDecimal_chars hmd 'x' (by rw [hrest]; simp) with hcx | hcx
    · exact absurd hcx (by decide)
    · exact absurd hcx (by decide)

theorem from_objHex_normalizes {h : List Char} {b : BigNumber}
    (hok : BigNumber.«from» (.objHex h) = .ok b) : toHex h = some b._hex := by
  rw [from_objHex] at hok
  split_ifs at hok with hcond
  · simp only [Bool.and_eq_true, Bool.not_eq_true', List.isEmpty_eq_false] at hcond
    rcases fromStr_ok hok with ⟨_, ht⟩ | ⟨_, hd, _⟩
    · exact ht
    · rw [isHexStringB_not_decimal hcond.2] at hd
      exact absurd hd (by decide)

theorem isLowerHexB_isHexStringB {ds : List Char}
    (hall : ∀ c ∈ ds, isLowerHexB c = true) :
    isHexStringB ('0' :: 'x' :: ds) = true := by
  show ((('0' :: 'x' :: ds).take 2 == ['0', 'x']) &&
    (('0' :: 'x' :: ds).drop 2).all isHexCIB) = true
  rw [show (('0' :: 'x' :: ds).take 2 == ['0', 'x']) = true from rfl,
    show ('0' :: 'x' :: ds).drop 2 = ds from rfl, Bool.true_and, List.all_eq_true]
  exact fun c hc => isLowerHexB_isHexCIB (hall c hc)

theorem from_objHex_canonicalPos {h : List Char} (hc : canonicalPos h = true) :
    BigNumber.«from» (.objHex h) = .ok ⟨h⟩ := by
  have hshape := (canonicalPos_iff h).mp hc
  obtain ⟨ds, rfl, hne, hall, _, _⟩ := hshape
  have hch : canonicalHex ('0' :: 'x' :: ds) = true := by
    rw [canonicalHex_pos_head (by simp)]
    exact hc
  rw [from_objHex, if_pos (show (!('0' :: 'x' :: ds).isEmpty &&
      isHexStringB ('0' :: 'x' :: ds)) = true by
    rw [isLowerHexB_isHexStringB hall]
    rfl)]
  exact fromStr_hex (canonicalHex_hasHexMatch hch) (toHex_canonical_fix hch)

/-! # Claims -/

/-- C1 counterexample: the hex-string regex of `BigNumber.from` is
unanchored and case-insensitive and the matched string is stored without
validation or lowercasing, so `from("0xFF")` stores `"0xFF"` verbatim,
which violates the lowercase canonical-form invariant. -/
theorem C1_canonical_cex :
    BigNumber.«from» (.str "0xFF".data) = .ok ⟨"0xFF".data⟩ ∧
      canonicalHex "0xFF".data = false :=
  ⟨by decide, by decide⟩

/-- C1 (amended): the canonical-form invariant (stored hex matches
`-?0x[0-9a-f]+` with lowercase digits, even and minimal digit count, zero
is exactly `0x00`, and no `-0x00`) holds for every accepted decimal
string, anchored-lowercase hex string, number, bigint and byte-sequence
input, and for the result of every arithmetic operation (`add`, `sub`,
`mul`, `div`, `mod`, `pow`, `maskn`, `toTwos`, `fromTwos`, and `abs` on a
canonical receiver).  It does not hold for hex strings accepted through
the unanchored case-insensitive regex that are not in anchored lowercase
form (see the counterexample). -/
theorem C1_canonical_invariant :
    (∀ s b, matchesDecimal s = true → BigNumber.«from» (.str s) = .ok b →
      canonicalHex b._hex = true) ∧
    (∀ s b, anchoredLowerHex s = true → BigNumber.«from» (.str s) = .ok b →
      canonicalHex b._hex = true) ∧
    (∀ (n : Int) b, BigNumber.«from» (.num n) = .ok b → canonicalHex b._hex = true) ∧
    (∀ (z : Int) b, BigNumber.«from» (.bigint z) = .ok b → canonicalHex b._hex = true) ∧
    (∀ bs b, BigNumber.«from» (.bytes bs) = .ok b → canonicalHex b._hex = true) ∧
    (∀ a v b, BigNumber.add a v = .ok b → canonicalHex b._hex = true) ∧
    (∀ a v b, BigNumber.sub a v = .ok b → canonicalHex b._hex = true) ∧
    (∀ a v b, BigNumber.mul a v = .ok b → canonicalHex b._hex = true) ∧
    (∀ a v b, BigNumber.div a v = .ok b → canonicalHex b._hex = true) ∧
    (∀ a v b, BigNumber.mod a v = .ok b → canonicalHex b._hex = true) ∧
    (∀ a v b, BigNumber.pow a v = .ok b → canonicalHex b._hex = true) ∧
    (∀ a w b, BigNumber.maskn a w = .ok b → canonicalHex b._hex = true) ∧
    (∀ a w b, BigNumber.toTwos a w = .ok b → canonicalHex b._hex = true) ∧
    (∀ a w b, BigNumber.fromTwos a w = .ok b → canonicalHex b._hex = true) ∧
    (∀ a b, canonicalHex a._hex = true → BigNumber.abs a = .ok b →
      canonicalHex b._hex = true) :=
  ⟨fun _ _ hd h => from_str_decimal_canonical hd h,
   fun _ _ ha h => from_str_anchored_canonical ha h,
   fun _ _ h => from_num_ok_canonical h,
   fun _ _ h => from_bigint_ok_canonical h,
   fun _ _ h => from_bytes_ok h,
   fun _ _ _ h => add_ok_canonical h,
   fun _ _ _ h => sub_ok_canonical h,
   fun _ _ _ h => mul_ok_canonical h,
   fun _ _ _ h => div_ok_canonical h,
   fun _ _ _ h => mod_ok_canonical h,
   fun _ _ _ h => pow_ok_canonical h,
   fun _ _ _ h => maskn_ok_canonical h,
   fun _ _ _ h => toTwos_ok_canonical h,
   fun _ _ _ h => fromTwos_ok_canonical h,
   fun _ _ hc h => abs_ok_canonical hc h⟩

/-- C1 witness: the decimal conjunct evaluated at `"255"`. -/
theorem C1_canonical_invariant_w :
    matchesDecimal "255".data = true ∧
      BigNumber.«from» (.str "255".data) = .ok ⟨"0xff".data⟩ ∧
      canonicalHex "0xff".data = true :=
  ⟨by decide, by decide, C1_canonical_invariant.1 "255".data ⟨"0xff".data⟩
    (by decide) (by decide)⟩

/-- C2 (confirmed): a string matching neither the anchored decimal pattern
nor the unanchored case-insensitive hex pattern fails with an
invalid-argument error; `from("12a")`, `from("--0x04")` and `from({})`
fail with invalid-argument errors; and every accepted string matches one
of the two shapes. -/
theorem C2_invalid_inputs :
    (∀ s, hasHexMatch s = false → matchesDecimal s = false →
      ∃ m, BigNumber.«from» (.str s) = .error (.invalidArgument m)) ∧
    (∃ m, BigNumber.«from» (.str "12a".data) = .error (.invalidArgument m)) ∧
    (∃ m, BigNumber.«from» (.str "--0x04".data) = .error (.invalidArgument m)) ∧
    (∃ m, BigNumber.«from» .other = .error (.invalidArgument m)) ∧
    (∀ s b, BigNumber.«from» (.str s) = .ok b →
      hasHexMatch s = true ∨ matchesDecimal s = true) := by
  refine ⟨?_, ⟨"invalid BigNumber string", by decide⟩, ⟨"invalid hex", by decide⟩,
    ⟨"invalid BigNumber value", rfl⟩, ?_⟩
  · intro s h1 h2
    exact ⟨_, by rw [from_str, fromStr_invalid h1 h2]⟩
  · intro s b h
    rw [from_str] at h
    exact fromStr_ok_shapes h

/-- C2 witness: the universal conjunct evaluated at `"hello"`. -/
theorem C2_invalid_inputs_w :
    hasHexMatch "hello".data = false ∧ matchesDecimal "hello".data = false ∧
      ∃ m, BigNumber.«from» (.str "hello".data) = .error (.invalidArgument m) :=
  ⟨by decide, by decide, C2_invalid_inputs.1 "hello".data (by decide) (by decide)⟩

/-- C3 counterexample: `from("0xFF")` and `from("0xff")` store different
hex strings but compare equal, so `a.eq(b)` does not coincide with
`a.toHexString() == b.toHexString()` over all values obtained from
`BigNumber.from`. -/
theorem C3_comparison_cex :
    BigNumber.«from» (.str "0xFF".data) = .ok ⟨"0xFF".data⟩ ∧
      BigNumber.«from» (.str "0xff".data) = .ok ⟨"0xff".data⟩ ∧
      BigNumber.eq ⟨"0xFF".data⟩ (.bn ⟨"0xff".data⟩) = .ok true ∧
      "0xFF".data ≠ "0xff".data :=
  ⟨by decide, by decide, by decide, by decide⟩

/-- C3 (amended): for values whose stored hex string is canonical (which
covers everything built from decimal strings, anchored-lowercase hex
strings, numbers, bigints, byte sequences and arithmetic results, but not
unnormalized case-variant hex-string inputs), `eq` returns `true` exactly
when the stored hex strings are equal, and `lt` agrees with the numeric
order of the decoded values whose decimal renderings `toString`
returns. -/
theorem C3_comparison_amended :
    ∀ a b : BigNumber, canonicalHex a._hex = true → canonicalHex b._hex = true →
      ∃ x y : Int, bnParseHex a._hex = some x ∧ bnParseHex b._hex = some y ∧
        (BigNumber.eq a (.bn b) = .ok true ↔ a._hex = b._hex) ∧
        BigNumber.toString a = .ok (intToDecStr x) ∧
        BigNumber.toString b = .ok (intToDecStr y) ∧
        (BigNumber.lt a (.bn b) = .ok true ↔ x < y) := by
  intro a b ha hb
  obtain ⟨x, hx, _⟩ := canonicalHex_parse_render ha
  obtain ⟨y, hy, _⟩ := canonicalHex_parse_render hb
  refine ⟨x, y, hx, hy, ?_, toString_eval hx, toString_eval hy, ?_⟩
  · rw [eq_eval hx hy]
    constructor
    · intro h
      injection h with h
      have hxy : x = y := of_decide_eq_true h
      subst hxy
      exact canonical_inj ha hb hx hy
    · intro h
      rw [h] at hx
      rw [hx] at hy
      injection hy with hy
      subst hy
      simp
  · rw [lt_eval hx hy]
    constructor
    · intro h
      injection h with h
      exact of_decide_eq_true h
    · intro h
      rw [decide_eq_true h]

/-- C3 witness: the amended comparison at the canonical values `0x01` and
`0x02`. -/
theorem C3_comparison_amended_w :
    canonicalHex "0x01".data = true ∧ canonicalHex "0x02".data = true ∧
      ∃ x y : Int, bnParseHex "0x01".data = some x ∧ bnParseHex "0x02".data = some y ∧
        (BigNumber.eq ⟨"0x01".data⟩ (.bn ⟨"0x02".data⟩) = .ok true ↔
          "0x01".data = "0x02".data) ∧
        BigNumber.toString ⟨"0x01".data⟩ = .ok (intToDecStr x) ∧
        BigNumber.toString ⟨"0x02".data⟩ = .ok (intToDecStr y) ∧
        (BigNumber.lt ⟨"0x01".data⟩ (.bn ⟨"0x02".data⟩) = .ok true ↔ x < y) :=
  ⟨by decide, by decide,
    C3_comparison_amended ⟨"0x01".data⟩ ⟨"0x02".data⟩ (by decide) (by decide)⟩

/-- C4 (confirmed): construction from an integral number fails with the
`overflow` numeric fault exactly when its magnitude is at least
`2^53 - 1`, and succeeds exactly otherwise; in particular `from(2**53)`
fails with overflow and `from(2**53 - 2)` succeeds. -/
theorem C4_overflow_boundary :
    (∀ n : Int, BigNumber.«from» (.num n) =
        .error (.numericFault "overflow" "BigNumber.from") ↔ 2 ^ 53 - 1 ≤ |n|) ∧
    (∀ n : Int, (∃ b, BigNumber.«from» (.num n) = .ok b) ↔ |n| < 2 ^ 53 - 1) ∧
    BigNumber.«from» (.num (2 ^ 53)) =
      .error (.numericFault "overflow" "BigNumber.from") ∧
    (∃ b, BigNumber.«from» (.num (2 ^ 53 - 2)) = .ok b) := by
  have hM : MAX_SAFE = 9007199254740991 := rfl
  have h53 : (2 : Int) ^ 53 = 9007199254740992 := by norm_num
  refine ⟨?_, ?_, by decide, ⟨⟨"0x1ffffffffffffe".data⟩, by decide⟩⟩
  · intro n
    rw [from_num]
    by_cases ho : MAX_SAFE ≤ n ∨ n ≤ -MAX_SAFE
    · rw [if_pos ho]
      constructor
      · intro _
        rw [le_abs]
        rcases ho with h | h
        · exact Or.inl (by omega)
        · exact Or.inr (by omega)
      · intro _
        rfl
    · rw [if_neg ho]
      obtain ⟨t, hfs, _, _, _⟩ := fromStr_intToDecStr n
      rw [hfs]
      constructor
      · intro hcon
        exact Except.noConfusion hcon
      · intro habs
        rw [le_abs] at habs
        exact absurd (by omega : MAX_SAFE ≤ n ∨ n ≤ -MAX_SAFE) ho
  · intro n
    rw [from_num]
    by_cases ho : MAX_SAFE ≤ n ∨ n ≤ -MAX_SAFE
    · rw [if_pos ho]
      constructor
      · rintro ⟨b, hb⟩
        exact Except.noConfusion hb
      · intro habs
        rw [abs_lt] at habs
        omega
    · rw [if_neg ho]
      obtain ⟨t, hfs, _, _, _⟩ := fromStr_intToDecStr n
      rw [hfs]
      constructor
      · intro _
        rw [abs_lt]
        omega
      · intro _
        exact ⟨⟨t⟩, rfl⟩

/-- C5 counterexample: for the decimal string `"-0"` the claim as stated
expects `toString` to return `"-0"` (nothing to strip besides the single
zero digit), but `from("-0")` stores `"0x00"` and `toString` returns
`"0"`. -/
theorem C5_roundtrip_cex :
    BigNumber.«from» (.str "-0".data) = .ok ⟨"0x00".data⟩ ∧
      BigNumber.toString ⟨"0x00".data⟩ = .ok "0".data ∧
      "0".data ≠ "-0".data :=
  ⟨by decide, by decide, by decide⟩

/-- C5 (amended): for every string matching `-?[0-9]+`, construction
succeeds and `toString` returns the string after stripping superfluous
leading zeros (keeping a single `0`) and additionally dropping the sign
when the remaining digits are `0` (so `"-0"` renders as `"0"`). -/
theorem C5_decimal_roundtrip :
    ∀ s, matchesDecimal s = true → ∃ b, BigNumber.«from» (.str s) = .ok b ∧
      BigNumber.toString b = .ok (canonDec s) := by
  intro s hd
  obtain ⟨z, t, hz, _, hfs, _, htp⟩ := fromStr_decimal hd
  refine ⟨⟨t⟩, by rw [from_str, hfs], ?_⟩
  rw [toString_eval htp, toString_canonDec hd hz]

/-- C5 witness: the amended round-trip at `"007"`. -/
theorem C5_decimal_roundtrip_w :
    matchesDecimal "007".data = true ∧
      ∃ b, BigNumber.«from» (.str "007".data) = .ok b ∧
        BigNumber.toString b = .ok (canonDec "007".data) :=
  ⟨by decide, C5_decimal_roundtrip "007".data (by decide)⟩

/-- C6 (confirmed): `toHex` is idempotent on everything it accepts — the
normalization of any accepted string is a fixed point, and every canonical
string normalizes to itself unchanged. -/
theorem C6_idempotent :
    (∀ s t, toHex s = some t → toHex t = some t) ∧
    (∀ t, canonicalHex t = true → toHex t = some t) :=
  ⟨fun _ _ h => toHex_idem h, fun _ h => toHex_canonical_fix h⟩

/-- C6 witness: normalizing `"0x0"` gives `"0x00"`, and re-normalizing
`"0x00"` returns it unchanged. -/
theorem C6_idempotent_w :
    toHex "0x0".data = some "0x00".data ∧ toHex "0x00".data = some "0x00".data :=
  ⟨by decide, C6_idempotent.1 "0x0".data "0x00".data (by decide)⟩

/-- C7 (confirmed): `from("0")`, `from("-0")`, `from("0x0")` and
`from("0x00")` all store exactly `"0x00"`, and no accepted input (other
than a pre-existing `BigNumber` passed through unchanged, which the
constructor guard prevents from ever holding a non-normalized string)
ever stores `"-0x00"`. -/
theorem C7_zero_canonicalization :
    BigNumber.«from» (.str "0".data) = .ok ⟨"0x00".data⟩ ∧
      BigNumber.«from» (.str "-0".data) = .ok ⟨"0x00".data⟩ ∧
      BigNumber.«from» (.str "0x0".data) = .ok ⟨"0x00".data⟩ ∧
      BigNumber.«from» (.str "0x00".data) = .ok ⟨"0x00".data⟩ ∧
      (∀ v b, (∀ b₀, v ≠ .bn b₀) → BigNumber.«from» v = .ok b →
        b._hex ≠ "-0x00".data) :=
  ⟨by decide, by decide, by decide, by decide,
   fun _ _ hnb h => from_ok_not_neg_zero hnb h⟩

/-- C7 witness: the no-negative-zero conjunct evaluated at the string
input `"0x05"`. -/
theorem C7_zero_canonicalization_w :
    (∀ b₀, BValue.str "0x05".data ≠ .bn b₀) ∧
      BigNumber.«from» (.str "0x05".data) = .ok ⟨"0x05".data⟩ ∧
      ("0x05".data : List Char) ≠ "-0x00".data :=
  ⟨fun _ h => BValue.noConfusion h, by decide,
   C7_zero_canonicalization.2.2.2.2 (.str "0x05".data) ⟨"0x05".data⟩
     (fun _ h => BValue.noConfusion h) (by decide)⟩

/-- C8 (confirmed): `div` fails with the `division by zero` numeric fault
carrying operation `div` exactly when the divisor normalizes (through
`BigNumber.from`) to a value that decodes to zero — the check happens on
the normalized divisor before the engine division — and
`from(1).div(from(0))` fails exactly this way. -/
theorem C8_div_by_zero :
    (∀ (a : BigNumber) (v : BValue),
      BigNumber.div a v = .error (.numericFault "division by zero" "div") ↔
        ∃ o, BigNumber.«from» v = .ok o ∧ bnParseHex o._hex = some 0) ∧
    BigNumber.div ⟨"0x01".data⟩ (.bn ⟨"0x00".data⟩) =
      .error (.numericFault "division by zero" "div") :=
  ⟨div_fault_iff, by decide⟩

/-- C9 counterexample: the object `{ _hex: "0x0" }` carries a valid hex
string, but `from` re-normalizes it instead of using it directly: the
stored hex is `"0x00"`, not the field value `"0x0"`. -/
theorem C9_objHex_cex :
    BigNumber.«from» (.objHex "0x0".data) = .ok ⟨"0x00".data⟩ ∧
      "0x00".data ≠ "0x0".data :=
  ⟨by decide, by decide⟩

/-- C9 (amended): for an object exposing a `_hex` field, the field is
re-dispatched through `BigNumber.from` rather than used verbatim: whenever
construction succeeds the stored hex is the `toHex`-normalization of the
field, so the field is used unchanged exactly when it is a fixed point of
`toHex` (which every canonical unsigned field is, but also unnormalized
fixed points such as `"0xFF"`). -/
theorem C9_objHex_normalized :
    (∀ h b, BigNumber.«from» (.objHex h) = .ok b → toHex h = some b._hex) ∧
    (∀ h b, BigNumber.«from» (.objHex h) = .ok b →
      (b._hex = h ↔ toHex h = some h)) ∧
    (∀ h, canonicalPos h = true → BigNumber.«from» (.objHex h) = .ok ⟨h⟩) := by
  refine ⟨fun _ _ hok => from_objHex_normalizes hok, ?_,
    fun _ hc => from_objHex_canonicalPos hc⟩
  intro h b hok
  have hnorm := from_objHex_normalizes hok
  constructor
  · intro hv
    rw [hv] at hnorm
    exact hnorm
  · intro hfix
    rw [hfix] at hnorm
    exact (Option.some.inj hnorm).symm

/-- C9 witness: the normalization conjunct at the field `"0x0"` (stored
hex is its normalization `"0x00"`), and the canonical field `"0xff"` kept
verbatim. -/
theorem C9_objHex_normalized_w :
    BigNumber.«from» (.objHex "0x0".data) = .ok ⟨"0x00".data⟩ ∧
      toHex "0x0".data = some "0x00".data ∧
      canonicalPos "0xff".data = true ∧
      BigNumber.«from» (.objHex "0xff".data) = .ok ⟨"0xff".data⟩ :=
  ⟨by decide,
   C9_objHex_normalized.1 "0x0".data ⟨"0x00".data⟩ (by decide),
   by decide,
   C9_objHex_normalized.2.2 "0xff".data (by decide)⟩

/-- C10 (confirmed): a bigint input is converted through its decimal
rendering with no safe-integer check — construction always succeeds and
agrees with `from` of the decimal string, bigints at and above `2^53 - 1`
included — and `isBigNumberish` holds of every bigint. -/
theorem C10_bigint :
    (∀ z : Int, BigNumber.«from» (.bigint z) =
      BigNumber.«from» (.str (intToDecStr z))) ∧
    (∀ z : Int, ∃ b, BigNumber.«from» (.bigint z) = .ok b) ∧
    (∀ z : Int, isBigNumberish (.bigint z) = true) ∧
    (∃ b, BigNumber.«from» (.bigint (2 ^ 53)) = .ok b ∧
      b._hex = "0x20000000000000".data) := by
  refine ⟨fun z => rfl, ?_, fun z => rfl,
    ⟨⟨"0x20000000000000".data⟩, by decide, rfl⟩⟩
  intro z
  obtain ⟨t, hfs, _, _, _⟩ := fromStr_intToDecStr z
  exact ⟨⟨t⟩, by rw [from_bigint, hfs]⟩
